import Mathlib

/-!
# The command executor of the CLI front-end

A shallow embedding of `source/octf/cli/Executor.cpp`: the module registry
(`getModules`, `addLocalModule`, `isModuleExistent`, `setModule`), command
resolution (`validateCommand`, `getCommandFromModule`), schema loading
(`loadModuleCommandSet`), dispatch (`execute`, `executeRemote`) and progress
reporting (`setProgress`).

Member functions become functions on an explicit `Executor` state.  A C++
function that may throw returns the state it leaves behind together with a
`Res`, so that what an exception leaves in the members can be stated.  Calls to
the node, and everything written to `log::cout`, are recorded in `out`.
-/

namespace octf

/-! ## Exceptions and results -/

/-- What a member function of the executor can throw. -/
inductive Exn
  /-- The exception `InvalidParameterException(what)`. -/
  | invalidParameter (what : String)
  /-- The exception `Exception(what)`. -/
  | exception (what : String)
  /-- The error of `CommandSet::addCmd` on a key that is already taken. -/
  | duplicateCommand (key : String)
  /-- Dereference of an empty `m_nodePlugin` (undefined behaviour in C++). -/
  | nullPlugin
  /-- An error raised by a collaborator (a command body, marshalling, a call). -/
  | failure (what : String)
deriving DecidableEq, Repr

/-- Outcome of a call: a normal return with a value, or a thrown exception. -/
inductive Res (α : Type)
  | ok (a : α)
  | threw (e : Exn)
deriving DecidableEq, Repr

/-! ## Collaborators of the executor -/

/-- Modelled from the spec: the `Module` class (`octf/cli/Module.h` is not part
of the sources at hand).  A module has a long key, an optional short key (empty
when absent), a description and a locality flag; a default-constructed module
has empty strings and is not local. -/
structure Module where
  m_longKey : String := ""
  m_shortKey : String := ""
  m_desc : String := ""
  m_isLocal : Bool := false
deriving DecidableEq, Repr

/-- Modelled from the spec: the `ICommand` objects the executor handles through
`shared_ptr<ICommand>` (`octf/cli/cmd/*.h` are not part of the sources at hand).
`addr` is the identity of the shared object, which is what `==` on two
`shared_ptr` compares; `isProtobuf` tells whether
`dynamic_pointer_cast<CommandProtobuf>` succeeds on it. -/
structure Command where
  addr : Nat
  longKey : String
  shortKey : String := ""
  isLocal : Bool
  isProtobuf : Bool
deriving DecidableEq, Repr

/-- A name selects a command by its long key, or by its short key when the
command has one (lookup is an exact match on short or long key). -/
def Command.hasKey (c : Command) (name : String) : Bool :=
  c.longKey == name || (c.shortKey != "" && c.shortKey == name)

/-- Modelled from the spec: the help command every command set designates
(`CmdHelp`), reachable under the name `help`. -/
def CmdHelp (addr : Nat) : Command :=
  { addr := addr, longKey := "help", shortKey := "", isLocal := true, isProtobuf := false }

/-- Modelled from the spec: a method of a local interface, as far as the
executor reads it: its name. -/
structure MethodDescriptor where
  name : String
deriving DecidableEq, Repr

/-- Modelled from the spec: a local interface is the list of its methods
(`interface->GetDescriptor()->method(i)` for `i < method_count()`). -/
structure Interface where
  methods : List MethodDescriptor
deriving DecidableEq, Repr

/-- Modelled from the spec: `CommandProtobufLocal(method, interface)`, the
local-bound command of one interface method. -/
def CommandProtobufLocal (addr : Nat) (method : MethodDescriptor) : Command :=
  { addr := addr, longKey := method.name, shortKey := "", isLocal := true, isProtobuf := true }

/-- Modelled from the spec: `proto::CliCommand`, the description of one command
received from a node, as far as the executor reads it: the keys of the
command. -/
structure CliCommand where
  longKey : String
  shortKey : String := ""
deriving DecidableEq, Repr

/-- Modelled from the spec: `CommandProtobuf(cmdDesc)`, the schema-described
command built from a received description; it is not local. -/
def CommandProtobuf (addr : Nat) (cmdDesc : CliCommand) : Command :=
  { addr := addr, longKey := cmdDesc.longKey, shortKey := cmdDesc.shortKey,
    isLocal := false, isProtobuf := true }

/-- Modelled from the spec: the `CommandSet` class (`octf/cli/CommandSet.h` is
not part of the sources at hand): an insertion-ordered collection of commands,
one of which is the designated help command. -/
structure CommandSet where
  m_cmds : List Command
  m_helpCmd : Command
deriving DecidableEq, Repr

/-- Modelled from the spec: a default-constructed command set holds its own
help command, allocated at `addr`, and nothing else. -/
def CommandSet.new (addr : Nat) : CommandSet :=
  { m_cmds := [CmdHelp addr], m_helpCmd := CmdHelp addr }

/-- Modelled from the spec: `CommandSet::getCmd`, `get(name) -> Command?`; the
first command selected by the name, absent (`nullptr`) when there is none. -/
def CommandSet.getCmd (cs : CommandSet) (name : String) : Option Command :=
  cs.m_cmds.find? (fun c => c.hasKey name)

/-- Modelled from the spec: `CommandSet::hasCmd`, `has(name) -> bool`. -/
def CommandSet.hasCmd (cs : CommandSet) (name : String) : Bool :=
  (cs.getCmd name).isSome

/-- Modelled from the spec: `CommandSet::getHelpCmd`, the designated help
command of the set. -/
def CommandSet.getHelpCmd (cs : CommandSet) : Command :=
  cs.m_helpCmd

/-- Modelled from the spec: `CommandSet::addCmd`; `add(command)` fails if a
command with the same short or long key already exists, and appends the command
otherwise. -/
def CommandSet.addCmd (cs : CommandSet) (cmd : Command) : Res CommandSet :=
  if cs.m_cmds.any (fun c => c.longKey == cmd.longKey ||
      (cmd.shortKey != "" && c.shortKey == cmd.shortKey)) then
    .threw (.duplicateCommand cmd.longKey)
  else
    .ok { cs with m_cmds := cs.m_cmds ++ [cmd] }

/-- Modelled from the spec: one element of the tokenised command line
(`CLIElement`), as far as the executor reads it: `getValidKeyName()`, which is
empty when the element is not a valid key. -/
structure CLIElement where
  validKeyName : String
deriving DecidableEq, Repr

/-- Modelled from the spec: `CLIList`, the command line elements not consumed
yet. -/
abbrev CLIList := List CLIElement

/-- Modelled from the spec: `CLIList::nextElement`, which consumes and returns
the next element, an element without key when there is none left. -/
def CLIList.nextElement (cliList : CLIList) : CLIElement × CLIList :=
  match cliList with
  | [] => ({ validKeyName := "" }, [])
  | e :: rest => (e, rest)

/-- Modelled from the spec: `CLIList::hasNext`. -/
def CLIList.hasNext (cliList : CLIList) : Bool :=
  !cliList.isEmpty

/-- Result of waiting on a `Call`: failed with an error text, or completed with
its output message. -/
inductive Call (α : Type)
  | failed (errorText : String)
  | done (output : α)
deriving DecidableEq, Repr

/-- What the executor does to the outside, in order: requests to the node
plugin and renderings written to `log::cout`. -/
inductive Event
  /-- The call `GenericPluginShadow(longKey).init()`. -/
  | init (node : String)
  /-- The command-set schema request `getCliCommandSetDescription`. -/
  | getCliCommandSetDescription (node : String)
  /-- The single-command schema request `getCliCommandDescription`. -/
  | getCliCommandDescription (node : String) (commandKey : String)
  /-- The text of `printUsage(ss, &m_module, false)` and `printCmdSetHelp(ss, m_moduleCmdSet)`. -/
  | printModuleHelp (md : Module) (cmds : List Command)
  /-- The text of `printMainHelp`: the modules and the local command set. -/
  | printMainHelp (modules : List Module) (cmds : List Command)
  /-- The text of `printCmdHelp(ss, command)`. -/
  | printCmdHelp (cmd : Command)
  /-- The call `command->execute()` of a local command. -/
  | execute (cmd : Command)
  /-- The call `genericCallMethod(interfaceId, methodId, call)` on the node. -/
  | genericCallMethod (node : String) (cmd : Command)
deriving DecidableEq, Repr

/-- The surroundings of the executor that are not part of the sources at hand
and are taken as parameters: the discovered nodes, the answers of a node, the
validity checks of `cliUtils`, and the outcome of the virtual calls on a
command. -/
structure World where
  /-- The ids `ModulesDiscover::getModulesList` reports, in order. -/
  nodes : List String
  /-- Whether `GenericPluginShadow(longKey).init()` succeeds. -/
  init : String → Bool
  /-- Answer of a node to the command-set schema request. -/
  getCliCommandSetDescription : String → Call (List CliCommand)
  /-- Answer of a node to the schema request for one command key. -/
  getCliCommandDescription : String → String → Call CliCommand
  /-- The check `cliUtils::isCommandSetValid`. -/
  isCommandSetValid : List CliCommand → Bool
  /-- The check `cliUtils::isCommandValid`. -/
  isCommandValid : CliCommand → Bool
  /-- Result of `command->parseParamValues(cliList)` on the remaining elements. -/
  parseParamValues : Command → CLIList → Bool
  /-- What `command->execute()` throws, if anything. -/
  execute : Command → Option Exn
  /-- What `cmd->parseToProtobuf(...)` throws, if anything. -/
  parseToProtobuf : Command → Option Exn
  /-- What `cmd->handleCall(call, out_msg)` throws on the answer of a node, if anything. -/
  handleCall : String → Command → Option Exn

/-! ## `std::map` with string keys -/

namespace StdMap

/-- The lookup `m.find(k)`: the value stored under `k`, if any. -/
def find {α : Type} : List (String × α) → String → Option α
  | [], _ => none
  | (k', v) :: rest, k => if k' = k then some v else find rest k

/-- The assignment `m[k] = v` on a map kept in key order: `std::string` keys are
ordered lexicographically by their characters. -/
def assign {α : Type} : List (String × α) → String → α → List (String × α)
  | [], k, v => [(k, v)]
  | (k', v') :: rest, k, v =>
    if k.data < k'.data then (k, v) :: (k', v') :: rest
    else if k = k' then (k, v) :: rest
    else (k', v') :: assign rest k v

/-- The entries of the map are in strictly increasing key order. -/
def Ordered {α : Type} (m : List (String × α)) : Prop :=
  m.Pairwise (fun a b => a.1 < b.1)

end StdMap

/-! ## The executor -/

/-- The members of `Executor` that resolution and dispatch use, the next free
object address `heap` (for `make_shared` and the help command of a new command
set), and the record `out` of what was done to the outside.  The member
`m_progress` is read and written by `setProgress` only and is kept apart. -/
structure Executor where
  m_localCmdSet : CommandSet
  m_moduleCmdSet : CommandSet
  m_modules : List (String × Module)
  m_localModules : List (String × CommandSet)
  m_module : Module
  m_nodePlugin : Option String
  heap : Nat
  out : List Event
deriving DecidableEq, Repr

namespace Executor

/-- The function `Executor::getModules`: one module per discovered node, stored under the
node id, with that id as long key and every other attribute at its default. -/
def getModules (w : World) (st : Executor) : Executor :=
  w.nodes.foldl
    (fun st id => { st with m_modules := StdMap.assign st.m_modules id { m_longKey := id } })
    st

/-- The constructor `Executor::Executor`: default-constructed members, then `getModules`. -/
def new (w : World) : Executor :=
  getModules w
    { m_localCmdSet := CommandSet.new 0
      m_moduleCmdSet := CommandSet.new 1
      m_modules := []
      m_localModules := []
      m_module := {}
      m_nodePlugin := none
      heap := 2
      out := [] }

/-- The loop of `Executor::isModuleExistent` over the entries of `m_modules`. -/
def isModuleExistentLoop : List (String × Module) → String → Bool
  | [], _ => false
  | md :: rest, moduleName =>
    if md.2.m_longKey = moduleName ∨ md.2.m_shortKey = moduleName then true
    else isModuleExistentLoop rest moduleName

/-- The function `Executor::isModuleExistent`. -/
def isModuleExistent (st : Executor) (moduleName : String) : Bool :=
  isModuleExistentLoop st.m_modules moduleName

/-- The access `m_localModules[key]`: the command set stored under `key`; when
there is none, a default-constructed one is stored under `key` first. -/
def localModulesAt (st : Executor) (key : String) : Executor × CommandSet :=
  match StdMap.find st.m_localModules key with
  | some cs => (st, cs)
  | none =>
    ({ st with m_localModules := StdMap.assign st.m_localModules key (CommandSet.new st.heap)
               heap := st.heap + 1 },
     CommandSet.new st.heap)

/-- The function `Executor::addInterface` with `Executor::addMethod`: every method of the
interface becomes a new local command added to the given command set; an error
of `addCmd` ends the loop and leaves the commands added so far. -/
def addInterface : List MethodDescriptor → Nat → CommandSet → Nat × CommandSet × Res Unit
  | [], heap, commandSet => (heap, commandSet, .ok ())
  | method :: rest, heap, commandSet =>
    match commandSet.addCmd (CommandProtobufLocal heap method) with
    | .threw e => (heap + 1, commandSet, .threw e)
    | .ok commandSet' => addInterface rest (heap + 1) commandSet'

/-- The function `Executor::addLocalCommand`.  The command object comes from the
caller and lives at its address, so objects created later get addresses above
it. -/
def addLocalCommand (st : Executor) (cmd : Command) : Executor × Res Unit :=
  match st.m_localCmdSet.addCmd cmd with
  | .threw e => ({ st with heap := max st.heap (cmd.addr + 1) }, .threw e)
  | .ok cs => ({ st with m_localCmdSet := cs, heap := max st.heap (cmd.addr + 1) }, .ok ())

/-- The function `Executor::addLocalModule(interface, longKey, desc, shortKey)`. -/
def addLocalModule (st : Executor) (interface : Interface)
    (longKey desc shortKey : String) : Executor × Res Unit :=
  if (StdMap.find st.m_modules longKey).isSome then
    (st, .threw (.exception ("Trying to add already existing module: " ++ longKey)))
  else
    let md : Module :=
      { m_desc := desc, m_longKey := longKey, m_shortKey := shortKey, m_isLocal := true }
    let st1 := { st with m_modules := StdMap.assign st.m_modules longKey md }
    let st2 := (st1.localModulesAt longKey).1
    let r := addInterface interface.methods st2.heap (st1.localModulesAt longKey).2
    ({ st2 with m_localModules := StdMap.assign st2.m_localModules longKey r.2.1
                heap := r.1 },
     r.2.2)

/-- The overload `Executor::addLocalModule(interface)`, that adds the methods
of the interface to the local command set. -/
def addLocalModule1 (st : Executor) (interface : Interface) : Executor × Res Unit :=
  let r := addInterface interface.methods st.heap st.m_localCmdSet
  ({ st with m_localCmdSet := r.2.1, heap := r.1 }, r.2.2)

/-- The loop of `Executor::setModule` over the entries of `m_modules`.  A
matching local module assigns `m_localModules[moduleName]` to the module
command set and the loop goes on; a matching remote module replaces the node
plugin, initialises it and ends the loop. -/
def setModuleLoop (w : World) (moduleName : String) :
    List (String × Module) → Executor → Executor × Res Unit
  | [], st => (st, .ok ())
  | md :: rest, st =>
    if md.2.m_longKey = moduleName ∨ md.2.m_shortKey = moduleName then
      let st1 := { st with m_module := md.2 }
      if st1.m_module.m_isLocal then
        let r := st1.localModulesAt moduleName
        setModuleLoop w moduleName rest { r.1 with m_moduleCmdSet := r.2 }
      else
        let st2 := { st1 with m_nodePlugin := some st1.m_module.m_longKey
                              out := st1.out ++ [.init st1.m_module.m_longKey] }
        if !w.init st1.m_module.m_longKey then
          (st2, .threw (.exception "Plugin unavailable."))
        else
          (st2, .ok ())
    else
      setModuleLoop w moduleName rest st

/-- The function `Executor::setModule`. -/
def setModule (w : World) (st : Executor) (moduleName : String) : Executor × Res Unit :=
  setModuleLoop w moduleName st.m_modules st

/-- The function `Executor::getCommandFromModule`: without node plugin the
result is `nullptr`; otherwise the description of the command is requested, a
failed call throws, a valid description becomes a new `CommandProtobuf` and an
invalid one gives `nullptr`. -/
def getCommandFromModule (w : World) (st : Executor) (cmdName : String) :
    Executor × Res (Option Command) :=
  match st.m_nodePlugin with
  | none => (st, .ok none)
  | some node =>
    let st1 := { st with out := st.out ++ [.getCliCommandDescription node cmdName] }
    match w.getCliCommandDescription node cmdName with
    | .failed errorText =>
      (st1, .threw (.invalidParameter ("Cannot get command description, error: " ++ errorText)))
    | .done cliCmd =>
      if w.isCommandValid cliCmd then
        ({ st1 with heap := st1.heap + 1 }, .ok (some (CommandProtobuf st1.heap cliCmd)))
      else
        (st1, .ok none)

/-- The function `Executor::validateCommand`.  The result carries the state,
the elements of the command line left for the parameters, and the command
(`none` for `nullptr`). -/
def validateCommand (w : World) (st : Executor) (cliList : CLIList) :
    Executor × CLIList × Res (Option Command) :=
  let element := CLIList.nextElement cliList
  let key := element.1.validKeyName
  if key = "" then
    (st, element.2, .threw (.invalidParameter "Invalid command format."))
  else if st.isModuleExistent key then
    match st.setModule w key with
    | (st1, .threw e) => (st1, element.2, .threw e)
    | (st1, .ok ()) =>
      if CLIList.hasNext element.2 then
        let element2 := CLIList.nextElement element.2
        let cmd := element2.1.validKeyName
        if cmd = "" then
          (st1, element2.2, .ok none)
        else if st1.m_moduleCmdSet.hasCmd cmd then
          (st1, element2.2, .ok (st1.m_moduleCmdSet.getCmd cmd))
        else
          ((st1.getCommandFromModule w cmd).1, element2.2, (st1.getCommandFromModule w cmd).2)
      else
        (st1, element.2, .ok none)
  else
    (st, element.2, .ok (st.m_localCmdSet.getCmd key))

/-- The loop of `Executor::loadModuleCommandSet` over the received command
descriptions: each becomes a new `CommandProtobuf` added to the command set. -/
def addCommands : List CliCommand → Nat → CommandSet → Nat × CommandSet × Res Unit
  | [], heap, commandSet => (heap, commandSet, .ok ())
  | cmdDesc :: rest, heap, commandSet =>
    match commandSet.addCmd (CommandProtobuf heap cmdDesc) with
    | .threw e => (heap + 1, commandSet, .threw e)
    | .ok commandSet' => addCommands rest (heap + 1) commandSet'

/-- The function `Executor::loadModuleCommandSet`.  For a local module the
command set registered under the long key of the module becomes the module
command set.  For a remote module the command-set description is requested from
the node; a failed call throws, and the commands of a valid description are
added to the module command set. -/
def loadModuleCommandSet (w : World) (st : Executor) : Executor × Res Unit :=
  if st.m_module.m_isLocal then
    let r := st.localModulesAt st.m_module.m_longKey
    ({ r.1 with m_moduleCmdSet := r.2 }, .ok ())
  else
    match st.m_nodePlugin with
    | none => (st, .threw .nullPlugin)
    | some node =>
      let st1 := { st with out := st.out ++ [.getCliCommandSetDescription node] }
      match w.getCliCommandSetDescription node with
      | .failed errorText =>
        (st1, .threw (.invalidParameter ("Cannot get command list, error: " ++ errorText)))
      | .done cmdSetDesc =>
        if w.isCommandSetValid cmdSetDesc then
          let r := addCommands cmdSetDesc st1.heap st1.m_moduleCmdSet
          ({ st1 with m_moduleCmdSet := r.2.1, heap := r.1 }, r.2.2)
        else
          (st1, .ok ())

/-- The function `Executor::executeRemote`: without node plugin it throws;
otherwise the parameters are marshalled, the generic call is issued on the node
and its result handled. -/
def executeRemote (w : World) (st : Executor) (cmd : Command) : Executor × Res Unit :=
  match st.m_nodePlugin with
  | none => (st, .threw (.exception "Wrong initialization of plugin."))
  | some node =>
    match w.parseToProtobuf cmd with
    | some e => (st, .threw e)
    | none =>
      let st1 := { st with out := st.out ++ [.genericCallMethod node cmd] }
      match w.handleCall node cmd with
      | some e => (st1, .threw e)
      | none => (st1, .ok ())

/-- The first branch of `Executor::execute`: load the command set of the module
and print the help of the module. -/
def executeModuleHelp (w : World) (st : Executor) : Executor × Res Unit :=
  match st.loadModuleCommandSet w with
  | (st1, .threw e) => (st1, .threw e)
  | (st1, .ok ()) =>
    ({ st1 with out := st1.out ++ [.printModuleHelp st1.m_module st1.m_moduleCmdSet.m_cmds] },
     .ok ())

/-- The last branch of `Executor::execute`, for a command that is neither
`nullptr` nor a help command: parse the parameters, then run the command
locally or remotely, or print the help of the command when parsing fails.
(`setupOutputsForCommandsLogs` only configures the log streams.) -/
def executeCommand (w : World) (st : Executor) (command : Command) (cliList : CLIList) :
    Executor × Res Unit :=
  if w.parseParamValues command cliList then
    if command.isLocal then
      let st1 := { st with out := st.out ++ [.execute command] }
      match w.execute command with
      | some e => (st1, .threw e)
      | none => (st1, .ok ())
    else if command.isProtobuf then
      st.executeRemote w command
    else
      (st, .threw (.invalidParameter "Unknown command type."))
  else
    ({ st with out := st.out ++ [.printCmdHelp command] }, .ok ())

/-- The function `Executor::execute`.  Commands are compared with the help
commands of the two command sets by the identity of the object. -/
def execute (w : World) (st : Executor) (cliList : CLIList) : Executor × Res Unit :=
  match st.validateCommand w cliList with
  | (st1, _, .threw e) => (st1, .threw e)
  | (st1, _, .ok none) => st1.executeModuleHelp w
  | (st1, rest, .ok (some command)) =>
    if command.addr = st1.m_moduleCmdSet.getHelpCmd.addr then
      st1.executeModuleHelp w
    else if command.addr = st1.m_localCmdSet.getHelpCmd.addr then
      ({ st1 with out := st1.out ++
            [.printMainHelp (st1.m_modules.map (fun md => md.2)) st1.m_localCmdSet.m_cmds] },
       .ok ())
    else
      st1.executeCommand w command rest

end Executor

/-- The executor states reached by construction (module discovery) followed by
any sequence of registrations, the failed ones included: `addLocalModule` calls
of either overload and `addLocalCommand` calls.  No command line has been
executed in such a state. -/
inductive Reachable (w : World) : Executor → Prop
  | new : Reachable w (Executor.new w)
  | addLocalModule (st : Executor) (interface : Interface) (longKey desc shortKey : String) :
      Reachable w st → Reachable w (st.addLocalModule interface longKey desc shortKey).1
  | addLocalModule1 (st : Executor) (interface : Interface) :
      Reachable w st → Reachable w (st.addLocalModule1 interface).1
  | addLocalCommand (st : Executor) (cmd : Command) :
      Reachable w st → Reachable w (st.addLocalCommand cmd).1

/-- The registry is in key order and every module is stored under its long key. -/
def RegistryInv (m : List (String × Module)) : Prop :=
  StdMap.Ordered m ∧ ∀ e ∈ m, e.1 = e.2.m_longKey

/-- A world with one reachable node `modA`, whose command set is `cmdX`, `cmdZ`
and which answers the request for any other command with an empty (invalid)
description. -/
def exampleWorld : World :=
  { nodes := ["modA"]
    init := fun _ => true
    getCliCommandSetDescription := fun _ => .done [{ longKey := "cmdX" }, { longKey := "cmdZ" }]
    getCliCommandDescription := fun _ key =>
      if key = "cmdX" ∨ key = "cmdZ" then .done { longKey := key } else .done { longKey := "" }
    isCommandSetValid := fun cmds => !cmds.isEmpty
    isCommandValid := fun cmd => cmd.longKey != ""
    parseParamValues := fun _ rest => rest.isEmpty
    execute := fun _ => none
    parseToProtobuf := fun _ => none
    handleCall := fun _ _ => none }

/-- An interface with the two methods `c` and `d`. -/
def exampleInterface : Interface :=
  { methods := [{ name := "c" }, { name := "d" }] }

/-- The executor of `exampleWorld` after registering the local module `loc`
with short key `l`. -/
def exampleExecutor : Executor :=
  ((Executor.new exampleWorld).addLocalModule exampleInterface "loc" "local module" "l").1

/-- The executor of `exampleWorld` after registering two local modules `a` and
`b` with the same short key `x`. -/
def sharedShortKeyExecutor : Executor :=
  (((Executor.new exampleWorld).addLocalModule exampleInterface "a" "" "x").1.addLocalModule
    exampleInterface "b" "" "x").1

/-- The executor of `exampleWorld` after registering a local module with an
empty long key. -/
def emptyLongKeyExecutor : Executor :=
  ((Executor.new exampleWorld).addLocalModule exampleInterface "" "" "").1

/-- The executor `exampleExecutor` after adding to the local command set the
methods `loc`, `modA` and `l` of an interface: local commands whose names are
the long key and the short key of the local module and the long key of the
remote module. -/
def shadowExecutor : Executor :=
  (exampleExecutor.addLocalModule1
    { methods := [{ name := "loc" }, { name := "modA" }, { name := "l" }] }).1

/-- The executor `shadowExecutor` after `execute` on `[modA]`, which selects the
remote module `modA` and shows its help. -/
def shadowAfterRemote : Executor :=
  (shadowExecutor.execute exampleWorld [{ validKeyName := "modA" }]).1

/-- The executor `exampleExecutor` after adding a local command `custom` that
reports itself as not local and is not a `CommandProtobuf`. -/
def customExecutor : Executor :=
  (exampleExecutor.addLocalCommand
    { addr := 100, longKey := "custom", shortKey := "", isLocal := false,
      isProtobuf := false }).1

/-- The commands `loadModuleCommandSet` creates for the received descriptions,
the first one at the address `heap`. -/
def CommandProtobufs : Nat → List CliCommand → List Command
  | _, [] => []
  | heap, cmdDesc :: rest => CommandProtobuf heap cmdDesc :: CommandProtobufs (heap + 1) rest

/-- The world `exampleWorld`, except that the node answers the command-set
request with an empty description, which fails validation. -/
def invalidSetWorld : World :=
  { exampleWorld with getCliCommandSetDescription := fun _ => .done [] }

/-- The executor of `invalidSetWorld` after registering the local module `loc`
and showing its help with `execute` on `[loc]`. -/
def staleExecutor : Executor :=
  (Executor.execute invalidSetWorld
    ((Executor.new invalidSetWorld).addLocalModule exampleInterface "loc" "local module" "l").1
    [{ validKeyName := "loc" }]).1

/-- The keys of a command, long key first. -/
def Command.keys (c : Command) : String × String :=
  (c.longKey, c.shortKey)

/-- Whether the described commands can be added one after the other to a
command set whose commands have the keys `keys`: no description repeats a long
key or a non-empty short key that is already there. -/
def keysAddable : List (String × String) → List CliCommand → Bool
  | _, [] => true
  | keys, cmdDesc :: rest =>
    !(keys.any (fun k => k.1 == cmdDesc.longKey ||
        (cmdDesc.shortKey != "" && k.2 == cmdDesc.shortKey))) &&
      keysAddable (keys ++ [(cmdDesc.longKey, cmdDesc.shortKey)]) rest

/-- What holds of an executor on which only registrations have run: remote
modules are as discovery made them, every local command set belongs to a local
module stored under the same key, and nothing has been selected, loaded or
printed yet. -/
def RegisteredInv (st : Executor) : Prop :=
  RegistryInv st.m_modules ∧
  (∀ e ∈ st.m_modules, e.2.m_isLocal = false → e.2.m_shortKey = "") ∧
  (∀ k : String, (StdMap.find st.m_localModules k).isSome = true →
    ∃ e ∈ st.m_modules, e.1 = k ∧ e.2.m_isLocal = true) ∧
  st.m_moduleCmdSet = CommandSet.new 1

/-- The object at address `a` has been created before and is stored in no module
command set: neither in the active one nor in one registered for a local
module. -/
def Executor.Separate (st : Executor) (a : Nat) : Prop :=
  a < st.heap ∧ (∀ c ∈ st.m_moduleCmdSet.m_cmds, c.addr ≠ a) ∧
  (∀ e ∈ st.m_localModules, ∀ c ∈ e.2.m_cmds, c.addr ≠ a)

/-! ## Theorems -/

/-! ### The ordered map -/

theorem StdMap.data_lt_iff (a b : String) : a.data < b.data ↔ a < b :=
  String.lt_iff_toList_lt.symm

theorem StdMap.mem_assign {α : Type} (m : List (String × α)) (k : String) (v : α)
    (x : String × α) (h : x ∈ StdMap.assign m k v) : x = (k, v) ∨ x ∈ m := by
  induction m with
  | nil => simpa [StdMap.assign] using h
  | cons hd tl ih =>
    obtain ⟨k', v'⟩ := hd
    unfold StdMap.assign at h
    split_ifs at h with h1 h2
    · simpa using h
    · rcases List.mem_cons.1 h with h | h
      · exact Or.inl h
      · exact Or.inr (List.mem_cons_of_mem _ h)
    · rcases List.mem_cons.1 h with h | h
      · exact Or.inr (by simp [h])
      · rcases ih h with h | h
        · exact Or.inl h
        · exact Or.inr (List.mem_cons_of_mem _ h)

theorem StdMap.assign_self_mem {α : Type} (m : List (String × α)) (k : String) (v : α) :
    (k, v) ∈ StdMap.assign m k v := by
  induction m with
  | nil => simp [StdMap.assign]
  | cons hd tl ih =>
    obtain ⟨k', v'⟩ := hd
    unfold StdMap.assign
    split_ifs with h1 h2
    · simp
    · simp
    · exact List.mem_cons_of_mem _ ih

theorem StdMap.assign_ordered {α : Type} (m : List (String × α)) (k : String) (v : α)
    (h : StdMap.Ordered m) : StdMap.Ordered (StdMap.assign m k v) := by
  induction m with
  | nil => simp [StdMap.assign, StdMap.Ordered]
  | cons hd tl ih =>
    obtain ⟨k', v'⟩ := hd
    unfold StdMap.Ordered at h ih ⊢
    obtain ⟨hhd, htl⟩ := List.pairwise_cons.1 h
    unfold StdMap.assign
    split_ifs with h1 h2
    · rw [StdMap.data_lt_iff] at h1
      refine List.pairwise_cons.2 ⟨?_, h⟩
      intro b hb
      rcases List.mem_cons.1 hb with rfl | hb
      · exact h1
      · exact lt_trans h1 (hhd b hb)
    · subst h2
      exact List.pairwise_cons.2 ⟨hhd, htl⟩
    · rw [StdMap.data_lt_iff] at h1
      refine List.pairwise_cons.2 ⟨?_, ih htl⟩
      intro b hb
      rcases StdMap.mem_assign tl k v b hb with rfl | hb
      · exact lt_of_le_of_ne (not_lt.1 h1) (Ne.symm h2)
      · exact hhd b hb

theorem StdMap.find_isSome_iff {α : Type} (m : List (String × α)) (k : String) :
    (StdMap.find m k).isSome = true ↔ ∃ x ∈ m, x.1 = k := by
  induction m with
  | nil => simp [StdMap.find]
  | cons hd tl ih =>
    obtain ⟨k', v'⟩ := hd
    unfold StdMap.find
    split_ifs with h1
    · simp [h1]
    · simp [ih, h1]

theorem StdMap.find_eq_none_iff {α : Type} (m : List (String × α)) (k : String) :
    StdMap.find m k = none ↔ ∀ x ∈ m, x.1 ≠ k := by
  have h := StdMap.find_isSome_iff m k
  cases hf : StdMap.find m k with
  | none =>
    simp only [hf, Option.isSome_none, Bool.false_eq_true, false_iff, not_exists, not_and] at h
    simpa using h
  | some v =>
    simp only [hf, Option.isSome_some, true_iff] at h
    obtain ⟨x, hx, hk⟩ := h
    simp only [reduceCtorEq, false_iff, not_forall]
    exact ⟨x, hx, fun hne => hne hk⟩

theorem StdMap.mem_assign_of_absent {α : Type} (m : List (String × α)) (k : String) (v : α)
    (hk : ∀ x ∈ m, x.1 ≠ k) (x : String × α) :
    x ∈ StdMap.assign m k v ↔ x = (k, v) ∨ x ∈ m := by
  induction m with
  | nil => simp [StdMap.assign]
  | cons hd tl ih =>
    obtain ⟨k', v'⟩ := hd
    have hne : k ≠ k' := fun h => hk (k', v') (List.mem_cons_self _ _) h.symm
    have ih' := ih (fun y hy => hk y (List.mem_cons_of_mem _ hy))
    unfold StdMap.assign
    split_ifs with h1
    · simp
    · simp only [List.mem_cons, ih']
      tauto

theorem StdMap.length_assign_of_absent {α : Type} (m : List (String × α)) (k : String) (v : α)
    (hk : ∀ x ∈ m, x.1 ≠ k) : (StdMap.assign m k v).length = m.length + 1 := by
  induction m with
  | nil => simp [StdMap.assign]
  | cons hd tl ih =>
    obtain ⟨k', v'⟩ := hd
    have hne : k ≠ k' := fun h => hk (k', v') (List.mem_cons_self _ _) h.symm
    have ih' := ih (fun y hy => hk y (List.mem_cons_of_mem _ hy))
    unfold StdMap.assign
    split_ifs with h1
    · simp
    · simp [ih']

theorem StdMap.find_assign_self {α : Type} (m : List (String × α)) (k : String) (v : α) :
    StdMap.find (StdMap.assign m k v) k = some v := by
  induction m with
  | nil => simp [StdMap.assign, StdMap.find]
  | cons hd tl ih =>
    obtain ⟨k', v'⟩ := hd
    unfold StdMap.assign
    split_ifs with h1 h2
    · simp [StdMap.find]
    · simp [StdMap.find]
    · rw [StdMap.find, if_neg (Ne.symm h2)]
      exact ih

theorem StdMap.find_assign_isSome {α : Type} (m : List (String × α)) (k k' : String) (v : α)
    (h : (StdMap.find (StdMap.assign m k v) k').isSome = true) :
    k' = k ∨ (StdMap.find m k').isSome = true := by
  obtain ⟨x, hx, hk⟩ := (StdMap.find_isSome_iff _ _).1 h
  rcases StdMap.mem_assign m k v x hx with rfl | hx
  · exact Or.inl hk.symm
  · exact Or.inr ((StdMap.find_isSome_iff _ _).2 ⟨x, hx, hk⟩)

/-! ### The module registry -/

theorem RegistryInv.assign (m : List (String × Module)) (md : Module) (h : RegistryInv m) :
    RegistryInv (StdMap.assign m md.m_longKey md) := by
  refine ⟨StdMap.assign_ordered m _ _ h.1, ?_⟩
  intro e he
  rcases StdMap.mem_assign m _ _ e he with rfl | he
  · rfl
  · exact h.2 e he

theorem RegistryInv.longKey_nodup {m : List (String × Module)} (h : RegistryInv m) :
    (m.map (fun e => e.2.m_longKey)).Nodup := by
  have hk : (m.map (fun e => e.2.m_longKey)) = m.map (fun e => e.1) :=
    List.map_congr_left (fun e he => (h.2 e he).symm)
  rw [hk]
  unfold List.Nodup
  rw [List.pairwise_map]
  exact List.Pairwise.imp (fun hab => ne_of_lt hab) h.1

theorem getModules_foldl_inv (ids : List String) (st : Executor) (h : RegistryInv st.m_modules) :
    RegistryInv (ids.foldl
      (fun st id => { st with m_modules := StdMap.assign st.m_modules id { m_longKey := id } })
      st).m_modules := by
  induction ids generalizing st with
  | nil => exact h
  | cons id rest ih =>
    simp only [List.foldl_cons]
    apply ih
    exact RegistryInv.assign st.m_modules { m_longKey := id } h

theorem getModules_foldl_frame (ids : List String) (st : Executor) :
    (ids.foldl
      (fun st id => { st with m_modules := StdMap.assign st.m_modules id { m_longKey := id } })
      st).m_localModules = st.m_localModules ∧
    (ids.foldl
      (fun st id => { st with m_modules := StdMap.assign st.m_modules id { m_longKey := id } })
      st).m_moduleCmdSet = st.m_moduleCmdSet := by
  induction ids generalizing st with
  | nil => exact ⟨rfl, rfl⟩
  | cons id rest ih =>
    simp only [List.foldl_cons]
    exact ih _

theorem getModules_foldl_remote (ids : List String) (st : Executor)
    (h : ∀ e ∈ st.m_modules, e.2.m_isLocal = false → e.2.m_shortKey = "") :
    ∀ e ∈ (ids.foldl
      (fun st id => { st with m_modules := StdMap.assign st.m_modules id { m_longKey := id } })
      st).m_modules, e.2.m_isLocal = false → e.2.m_shortKey = "" := by
  induction ids generalizing st with
  | nil => exact h
  | cons id rest ih =>
    simp only [List.foldl_cons]
    apply ih
    intro e he
    rcases StdMap.mem_assign _ _ _ e he with rfl | he
    · exact fun _ => rfl
    · exact h e he

theorem Executor.localModulesAt_modules (st : Executor) (key : String) :
    (st.localModulesAt key).1.m_modules = st.m_modules := by
  unfold Executor.localModulesAt
  split <;> rfl

theorem Executor.localModulesAt_module (st : Executor) (key : String) :
    (st.localModulesAt key).1.m_module = st.m_module := by
  unfold Executor.localModulesAt
  split <;> rfl

theorem Executor.localModulesAt_moduleCmdSet (st : Executor) (key : String) :
    (st.localModulesAt key).1.m_moduleCmdSet = st.m_moduleCmdSet := by
  unfold Executor.localModulesAt
  split <;> rfl

theorem Executor.localModulesAt_keys (st : Executor) (key k : String)
    (h : (StdMap.find (st.localModulesAt key).1.m_localModules k).isSome = true) :
    k = key ∨ (StdMap.find st.m_localModules k).isSome = true := by
  unfold Executor.localModulesAt at h
  cases hf : StdMap.find st.m_localModules key with
  | some cs =>
    simp only [hf] at h
    exact Or.inr h
  | none =>
    simp only [hf] at h
    exact StdMap.find_assign_isSome _ _ _ _ h

theorem Executor.localModulesAt_new (st : Executor) (key : String)
    (h : ∀ cs, StdMap.find st.m_localModules key = some cs → ∃ a, cs = CommandSet.new a) :
    (∃ a, (st.localModulesAt key).2 = CommandSet.new a) ∧
    (∀ cs, StdMap.find (st.localModulesAt key).1.m_localModules key = some cs →
      ∃ a, cs = CommandSet.new a) ∧
    (st.localModulesAt key).1.out = st.out ∧
    (st.localModulesAt key).1.m_modules = st.m_modules ∧
    (st.localModulesAt key).1.m_localCmdSet = st.m_localCmdSet ∧
    (st.localModulesAt key).1.m_nodePlugin = st.m_nodePlugin := by
  unfold Executor.localModulesAt
  cases hf : StdMap.find st.m_localModules key with
  | some cs =>
    exact ⟨h cs hf, h, rfl, rfl, rfl, rfl⟩
  | none =>
    refine ⟨⟨_, rfl⟩, ?_, rfl, rfl, rfl, rfl⟩
    intro cs hcs
    simp only [StdMap.find_assign_self] at hcs
    exact ⟨st.heap, by simpa using hcs.symm⟩

theorem Executor.addLocalModule_modules (st : Executor) (interface : Interface)
    (longKey desc shortKey : String) :
    (st.addLocalModule interface longKey desc shortKey).1.m_modules =
      if (StdMap.find st.m_modules longKey).isSome then st.m_modules
      else StdMap.assign st.m_modules longKey
        { m_desc := desc, m_longKey := longKey, m_shortKey := shortKey, m_isLocal := true } := by
  unfold Executor.addLocalModule
  split_ifs with h
  · rfl
  · simp only [Executor.localModulesAt_modules]

theorem Executor.addLocalModule_moduleCmdSet (st : Executor) (interface : Interface)
    (longKey desc shortKey : String) :
    (st.addLocalModule interface longKey desc shortKey).1.m_moduleCmdSet = st.m_moduleCmdSet := by
  unfold Executor.addLocalModule
  split_ifs with h
  · rfl
  · simp only [Executor.localModulesAt_moduleCmdSet]

theorem Executor.addLocalModule_localModules_keys (st : Executor) (interface : Interface)
    (longKey desc shortKey k : String)
    (h : (StdMap.find
      (st.addLocalModule interface longKey desc shortKey).1.m_localModules k).isSome = true) :
    (k = longKey ∧ (StdMap.find st.m_modules longKey).isSome = false) ∨
      (StdMap.find st.m_localModules k).isSome = true := by
  unfold Executor.addLocalModule at h
  split_ifs at h with hf
  · exact Or.inr h
  · simp only at h
    rcases StdMap.find_assign_isSome _ _ _ _ h with hk | hk
    · exact Or.inl ⟨hk, by simpa using hf⟩
    · rcases Executor.localModulesAt_keys _ _ _ hk with hk | hk
      · exact Or.inl ⟨hk, by simpa using hf⟩
      · exact Or.inr hk

theorem Executor.addLocalCommand_frame (st : Executor) (cmd : Command) :
    (st.addLocalCommand cmd).1.m_modules = st.m_modules ∧
    (st.addLocalCommand cmd).1.m_localModules = st.m_localModules ∧
    (st.addLocalCommand cmd).1.m_moduleCmdSet = st.m_moduleCmdSet := by
  unfold Executor.addLocalCommand
  cases st.m_localCmdSet.addCmd cmd <;> exact ⟨rfl, rfl, rfl⟩

theorem Reachable.registryInv {w : World} {st : Executor} (h : Reachable w st) :
    RegistryInv st.m_modules := by
  induction h with
  | new =>
    unfold Executor.new Executor.getModules
    apply getModules_foldl_inv
    exact ⟨List.Pairwise.nil, by simp⟩
  | addLocalModule st interface longKey desc shortKey _ ih =>
    rw [Executor.addLocalModule_modules]
    split_ifs with hf
    · exact ih
    · exact RegistryInv.assign st.m_modules
        { m_desc := desc, m_longKey := longKey, m_shortKey := shortKey, m_isLocal := true } ih
  | addLocalModule1 st interface _ ih => exact ih
  | addLocalCommand st cmd _ ih =>
    rw [(Executor.addLocalCommand_frame st cmd).1]
    exact ih

theorem Reachable.registeredInv {w : World} {st : Executor} (h : Reachable w st) :
    RegisteredInv st := by
  refine ⟨h.registryInv, ?_⟩
  induction h with
  | new =>
    unfold Executor.new Executor.getModules
    refine ⟨getModules_foldl_remote _ _ (by simp), ?_, ?_⟩
    · intro k hk
      rw [(getModules_foldl_frame _ _).1] at hk
      simp [StdMap.find] at hk
    · rw [(getModules_foldl_frame _ _).2]
  | addLocalModule st interface longKey desc shortKey hst ih =>
    obtain ⟨hremote, hlocal, hset⟩ := ih
    have hmods := Executor.addLocalModule_modules st interface longKey desc shortKey
    refine ⟨?_, ?_, ?_⟩
    · intro e he
      rw [hmods] at he
      split_ifs at he with hf
      · exact hremote e he
      · rcases StdMap.mem_assign _ _ _ e he with rfl | he
        · intro hl
          cases hl
        · exact hremote e he
    · intro k hk
      rw [hmods]
      rcases Executor.addLocalModule_localModules_keys st interface longKey desc shortKey k hk
        with ⟨rfl, hf⟩ | hk
      · rw [if_neg (by simp [hf])]
        exact ⟨_, StdMap.assign_self_mem _ _ _, rfl, rfl⟩
      · obtain ⟨e, he, hek, hel⟩ := hlocal k hk
        split_ifs with hf
        · exact ⟨e, he, hek, hel⟩
        · refine ⟨e, ?_, hek, hel⟩
          have habs : ∀ x ∈ st.m_modules, x.1 ≠ longKey :=
            (StdMap.find_eq_none_iff _ _).1 (by simpa using hf)
          exact (StdMap.mem_assign_of_absent _ _ _ habs e).2 (Or.inr he)
    · rw [Executor.addLocalModule_moduleCmdSet]
      exact hset
  | addLocalModule1 st interface _ ih => exact ih
  | addLocalCommand st cmd _ ih =>
    have hfr := Executor.addLocalCommand_frame st cmd
    obtain ⟨hremote, hlocal, hset⟩ := ih
    refine ⟨?_, ?_, ?_⟩
    · rw [hfr.1]
      exact hremote
    · rw [hfr.1, hfr.2.1]
      exact hlocal
    · rw [hfr.2.2]
      exact hset

theorem Executor.isModuleExistentLoop_eq_true (m : List (String × Module)) (name : String) :
    Executor.isModuleExistentLoop m name = true ↔
      ∃ e ∈ m, e.2.m_longKey = name ∨ e.2.m_shortKey = name := by
  induction m with
  | nil => simp [Executor.isModuleExistentLoop]
  | cons hd tl ih =>
    unfold Executor.isModuleExistentLoop
    split_ifs with h
    · simp [h]
    · simp [ih, h]

theorem Executor.isModuleExistent_of_mem (st : Executor) (key : String) (md : Module)
    (hmem : ∃ e ∈ st.m_modules, e.2 = md) (hmd : md.m_longKey = key ∨ md.m_shortKey = key) :
    st.isModuleExistent key = true := by
  obtain ⟨e, he, rfl⟩ := hmem
  exact (Executor.isModuleExistentLoop_eq_true _ _).2 ⟨e, he, hmd⟩

theorem Executor.addInterface_result (methods : List MethodDescriptor) (heap : Nat) (cs : CommandSet) :
    (Executor.addInterface methods heap cs).2.2 = .ok () ∨
      ∃ key, (Executor.addInterface methods heap cs).2.2 = .threw (.duplicateCommand key) := by
  induction methods generalizing heap cs with
  | nil => exact Or.inl rfl
  | cons method rest ih =>
    unfold Executor.addInterface
    cases hadd : cs.addCmd (CommandProtobufLocal heap method) with
    | ok cs' => exact ih (heap + 1) cs'
    | threw e =>
      unfold CommandSet.addCmd at hadd
      split_ifs at hadd
      cases hadd
      exact Or.inr ⟨_, rfl⟩

theorem Executor.addInterface_ne_exception (methods : List MethodDescriptor) (heap : Nat)
    (cs : CommandSet) (what : String) :
    (Executor.addInterface methods heap cs).2.2 ≠ .threw (.exception what) := by
  rcases Executor.addInterface_result methods heap cs with hr | ⟨key, hr⟩
  · rw [hr]; simp
  · rw [hr]; simp

/-- Claim C1.  In every registry state reached by module discovery followed by
`addLocalModule` calls, `isModuleExistent` is true on the long key of every
registered module (which is also the key the module is stored under) and on its
short key when that is set, and it is false on every key that is neither the
long nor the short key of a registered module. -/
theorem isModuleExistent_registered (w : World) (st : Executor) (h : Reachable w st) :
    (∀ e ∈ st.m_modules,
        st.isModuleExistent e.2.m_longKey = true ∧
        st.isModuleExistent e.1 = true ∧
        (e.2.m_shortKey ≠ "" → st.isModuleExistent e.2.m_shortKey = true)) ∧
    (∀ key : String,
        (∀ e ∈ st.m_modules, e.2.m_longKey ≠ key ∧ e.2.m_shortKey ≠ key) →
        st.isModuleExistent key = false) := by
  refine ⟨fun e he => ⟨?_, ?_, fun _ => ?_⟩, fun key hkey => ?_⟩
  · exact (Executor.isModuleExistentLoop_eq_true _ _).2 ⟨e, he, Or.inl rfl⟩
  · exact (Executor.isModuleExistentLoop_eq_true _ _).2
      ⟨e, he, Or.inl (h.registryInv.2 e he).symm⟩
  · exact (Executor.isModuleExistentLoop_eq_true _ _).2 ⟨e, he, Or.inr rfl⟩
  · cases hex : st.isModuleExistent key with
    | false => rfl
    | true =>
      obtain ⟨e, he, hk⟩ := (Executor.isModuleExistentLoop_eq_true _ _).1 hex
      rcases hk with hk | hk
      · exact absurd hk (hkey e he).1
      · exact absurd hk (hkey e he).2

/-- Witness of `isModuleExistent_registered` on the executor with the remote
module `modA` and the local module `loc` (short key `l`). -/
theorem isModuleExistent_registered_witness :
    Reachable exampleWorld exampleExecutor ∧
    ((∀ e ∈ exampleExecutor.m_modules,
        exampleExecutor.isModuleExistent e.2.m_longKey = true ∧
        exampleExecutor.isModuleExistent e.1 = true ∧
        (e.2.m_shortKey ≠ "" → exampleExecutor.isModuleExistent e.2.m_shortKey = true)) ∧
     (∀ key : String,
        (∀ e ∈ exampleExecutor.m_modules, e.2.m_longKey ≠ key ∧ e.2.m_shortKey ≠ key) →
        exampleExecutor.isModuleExistent key = false)) :=
  ⟨Reachable.addLocalModule _ _ _ _ _ Reachable.new,
   isModuleExistent_registered exampleWorld exampleExecutor
     (Reachable.addLocalModule _ _ _ _ _ Reachable.new)⟩

/-- Claim C2.  In a reachable registry state, `addLocalModule` with a long key
that a registered module already has throws and leaves the whole executor state
(so the registry and the local command sets) as it was; with a long key that no
registered module has, it does not throw the already-existing-module exception
and the registry afterwards is the old one plus exactly one entry, the new
local module under that long key. -/
theorem addLocalModule_duplicate (w : World) (st : Executor) (h : Reachable w st)
    (interface : Interface) (longKey desc shortKey : String) :
    ((∃ e ∈ st.m_modules, e.2.m_longKey = longKey) →
      st.addLocalModule interface longKey desc shortKey =
        (st, .threw (.exception ("Trying to add already existing module: " ++ longKey)))) ∧
    ((∀ e ∈ st.m_modules, e.2.m_longKey ≠ longKey) →
      (∀ what : String,
        (st.addLocalModule interface longKey desc shortKey).2 ≠ .threw (.exception what)) ∧
      (∀ x : String × Module,
        x ∈ (st.addLocalModule interface longKey desc shortKey).1.m_modules ↔
          x = (longKey, { m_longKey := longKey, m_shortKey := shortKey, m_desc := desc,
                          m_isLocal := true }) ∨ x ∈ st.m_modules) ∧
      (st.addLocalModule interface longKey desc shortKey).1.m_modules.length =
        st.m_modules.length + 1) := by
  have hinv := h.registryInv
  constructor
  · rintro ⟨e, he, hk⟩
    have hf : (StdMap.find st.m_modules longKey).isSome = true :=
      (StdMap.find_isSome_iff _ _).2 ⟨e, he, by rw [hinv.2 e he, hk]⟩
    unfold Executor.addLocalModule
    rw [if_pos hf]
  · intro habs
    have hkeys : ∀ x ∈ st.m_modules, x.1 ≠ longKey := fun x hx => by
      rw [hinv.2 x hx]; exact habs x hx
    have hf : ¬ (StdMap.find st.m_modules longKey).isSome = true := by
      rw [(StdMap.find_eq_none_iff _ _).2 hkeys]; simp
    refine ⟨?_, ?_, ?_⟩
    · intro what
      unfold Executor.addLocalModule
      rw [if_neg hf]
      exact Executor.addInterface_ne_exception _ _ _ what
    · intro x
      rw [Executor.addLocalModule_modules, if_neg hf]
      exact StdMap.mem_assign_of_absent _ _ _ hkeys x
    · rw [Executor.addLocalModule_modules, if_neg hf]
      exact StdMap.length_assign_of_absent _ _ _ hkeys

/-- Witness of `addLocalModule_duplicate`: on the executor that has the local
module `loc`, registering `loc` again throws and changes nothing, and
registering `other` adds one module. -/
theorem addLocalModule_duplicate_witness :
    Reachable exampleWorld exampleExecutor ∧
    (∃ e ∈ exampleExecutor.m_modules, e.2.m_longKey = "loc") ∧
    exampleExecutor.addLocalModule exampleInterface "loc" "again" "" =
      (exampleExecutor, .threw (.exception ("Trying to add already existing module: " ++ "loc"))) ∧
    (∀ e ∈ exampleExecutor.m_modules, e.2.m_longKey ≠ "other") ∧
    (exampleExecutor.addLocalModule exampleInterface "other" "" "o").1.m_modules.length =
      exampleExecutor.m_modules.length + 1 :=
  ⟨Reachable.addLocalModule _ _ _ _ _ Reachable.new,
   by decide,
   (addLocalModule_duplicate exampleWorld exampleExecutor
      (Reachable.addLocalModule _ _ _ _ _ Reachable.new) exampleInterface "loc" "again" "").1
      (by decide),
   by decide,
   ((addLocalModule_duplicate exampleWorld exampleExecutor
      (Reachable.addLocalModule _ _ _ _ _ Reachable.new) exampleInterface "other" "" "o").2
      (by decide)).2.2⟩

/-- Claim C10, as amended.  In every registry state reached by module discovery
followed by `addLocalModule` calls, no two modules share a long key (the list
of long keys has no duplicate, and two entries with the same long key are the
same entry), and every module is stored under its own long key. -/
theorem registry_longKey_unique (w : World) (st : Executor) (h : Reachable w st) :
    (st.m_modules.map (fun e => e.2.m_longKey)).Nodup ∧
    (∀ e1 ∈ st.m_modules, ∀ e2 ∈ st.m_modules,
        e1.2.m_longKey = e2.2.m_longKey → e1 = e2) ∧
    (∀ e ∈ st.m_modules, e.1 = e.2.m_longKey) := by
  have hinv := h.registryInv
  refine ⟨hinv.longKey_nodup, ?_, hinv.2⟩
  intro e1 h1 e2 h2 heq
  exact List.inj_on_of_nodup_map hinv.longKey_nodup h1 h2 heq

/-- Witness of `registry_longKey_unique` on the executor with the two local
modules `a` and `b`. -/
theorem registry_longKey_unique_witness :
    Reachable exampleWorld sharedShortKeyExecutor ∧
    ((sharedShortKeyExecutor.m_modules.map (fun e => e.2.m_longKey)).Nodup ∧
     (∀ e1 ∈ sharedShortKeyExecutor.m_modules, ∀ e2 ∈ sharedShortKeyExecutor.m_modules,
        e1.2.m_longKey = e2.2.m_longKey → e1 = e2) ∧
     (∀ e ∈ sharedShortKeyExecutor.m_modules, e.1 = e.2.m_longKey)) :=
  ⟨Reachable.addLocalModule _ _ _ _ _ (Reachable.addLocalModule _ _ _ _ _ Reachable.new),
   registry_longKey_unique exampleWorld sharedShortKeyExecutor
     (Reachable.addLocalModule _ _ _ _ _ (Reachable.addLocalModule _ _ _ _ _ Reachable.new))⟩

/-- Claim C10, counterexample.  Two `addLocalModule` calls with different long
keys and the same short key `x` both succeed and leave two modules that share
the non-empty short key; and an `addLocalModule` call with an empty long key
succeeds and leaves a module whose long key is empty. -/
theorem registry_keys_counterexample :
    (Reachable exampleWorld sharedShortKeyExecutor ∧
      ∃ e1 ∈ sharedShortKeyExecutor.m_modules, ∃ e2 ∈ sharedShortKeyExecutor.m_modules,
        e1.2.m_longKey ≠ e2.2.m_longKey ∧ e1.2.m_shortKey ≠ "" ∧
        e1.2.m_shortKey = e2.2.m_shortKey) ∧
    (Reachable exampleWorld emptyLongKeyExecutor ∧
      ((Executor.new exampleWorld).addLocalModule exampleInterface "" "" "").2 = .ok () ∧
      ∃ e ∈ emptyLongKeyExecutor.m_modules, e.2.m_longKey = "") := by
  refine ⟨⟨Reachable.addLocalModule _ _ _ _ _ (Reachable.addLocalModule _ _ _ _ _ Reachable.new),
    ?_⟩, ⟨Reachable.addLocalModule _ _ _ _ _ Reachable.new, ?_, ?_⟩⟩
  · decide
  · decide
  · decide

/-! ### Selecting a module -/

theorem Executor.setModuleLoop_skip (w : World) (key : String) (md : String × Module)
    (rest : List (String × Module)) (st : Executor)
    (h : ¬ (md.2.m_longKey = key ∨ md.2.m_shortKey = key)) :
    Executor.setModuleLoop w key (md :: rest) st = Executor.setModuleLoop w key rest st := by
  rw [Executor.setModuleLoop, if_neg h]

theorem Executor.setModuleLoop_local (w : World) (key : String) (md : String × Module)
    (rest : List (String × Module)) (st : Executor)
    (h : md.2.m_longKey = key ∨ md.2.m_shortKey = key) (hl : md.2.m_isLocal = true) :
    Executor.setModuleLoop w key (md :: rest) st =
      Executor.setModuleLoop w key rest
        { (({ st with m_module := md.2 } : Executor).localModulesAt key).1 with
          m_moduleCmdSet := (({ st with m_module := md.2 } : Executor).localModulesAt key).2 } := by
  rw [Executor.setModuleLoop, if_pos h]
  simp only [hl, if_true]

theorem Executor.setModuleLoop_remote (w : World) (key : String) (md : String × Module)
    (rest : List (String × Module)) (st : Executor)
    (h : md.2.m_longKey = key ∨ md.2.m_shortKey = key) (hl : md.2.m_isLocal = false) :
    Executor.setModuleLoop w key (md :: rest) st =
      ({ st with m_module := md.2, m_nodePlugin := some md.2.m_longKey,
                 out := st.out ++ [.init md.2.m_longKey] },
       if w.init md.2.m_longKey then .ok () else .threw (.exception "Plugin unavailable.")) := by
  rw [Executor.setModuleLoop, if_pos h]
  simp only [hl]
  cases w.init md.2.m_longKey <;> simp

theorem Executor.localModulesAt_setLocal (st : Executor) (cs : CommandSet) (key : String) :
    ({ st with m_localCmdSet := cs } : Executor).localModulesAt key =
      ({ (st.localModulesAt key).1 with m_localCmdSet := cs }, (st.localModulesAt key).2) := by
  unfold Executor.localModulesAt
  cases h : StdMap.find st.m_localModules key <;> simp [h]

theorem Executor.setModuleLoop_setLocal (w : World) (key : String) (cs : CommandSet)
    (l : List (String × Module)) (st : Executor) :
    Executor.setModuleLoop w key l { st with m_localCmdSet := cs } =
      ({ (Executor.setModuleLoop w key l st).1 with m_localCmdSet := cs },
       (Executor.setModuleLoop w key l st).2) := by
  induction l generalizing st with
  | nil => rfl
  | cons md rest ih =>
    by_cases h : md.2.m_longKey = key ∨ md.2.m_shortKey = key
    · cases hl : md.2.m_isLocal with
      | true =>
        rw [Executor.setModuleLoop_local w key md rest _ h hl,
          Executor.setModuleLoop_local w key md rest _ h hl]
        have := Executor.localModulesAt_setLocal { st with m_module := md.2 } cs key
        simp only at this
        simp only [this]
        exact ih { (({ st with m_module := md.2 } : Executor).localModulesAt key).1 with
          m_moduleCmdSet := (({ st with m_module := md.2 } : Executor).localModulesAt key).2 }
      | false =>
        rw [Executor.setModuleLoop_remote w key md rest _ h hl,
          Executor.setModuleLoop_remote w key md rest _ h hl]
    · rw [Executor.setModuleLoop_skip w key md rest _ h,
        Executor.setModuleLoop_skip w key md rest _ h]
      exact ih st

theorem Executor.setModuleLoop_module (w : World) (key : String)
    (l : List (String × Module)) (st : Executor)
    (h : (st.m_module.m_longKey = key ∨ st.m_module.m_shortKey = key) ∨
      ∃ e ∈ l, e.2.m_longKey = key ∨ e.2.m_shortKey = key) :
    (Executor.setModuleLoop w key l st).1.m_module.m_longKey = key ∨
      (Executor.setModuleLoop w key l st).1.m_module.m_shortKey = key := by
  induction l generalizing st with
  | nil =>
    rcases h with h | ⟨e, he, _⟩
    · exact h
    · cases he
  | cons md rest ih =>
    by_cases hm : md.2.m_longKey = key ∨ md.2.m_shortKey = key
    · cases hl : md.2.m_isLocal with
      | true =>
        rw [Executor.setModuleLoop_local w key md rest _ hm hl]
        apply ih
        left
        simp only [Executor.localModulesAt_module]
        exact hm
      | false =>
        rw [Executor.setModuleLoop_remote w key md rest _ hm hl]
        exact hm
    · rw [Executor.setModuleLoop_skip w key md rest _ hm]
      apply ih
      rcases h with h | ⟨e, he, hk⟩
      · exact Or.inl h
      · rcases List.mem_cons.1 he with rfl | he
        · exact absurd hk hm
        · exact Or.inr ⟨e, he, hk⟩

theorem Executor.setModuleLoop_unique_remote (w : World) (key : String) (md : Module)
    (l : List (String × Module)) (st : Executor)
    (hmem : ∃ e ∈ l, e.2 = md) (hkey : md.m_longKey = key ∨ md.m_shortKey = key)
    (hremote : md.m_isLocal = false)
    (huniq : ∀ e ∈ l, (e.2.m_longKey = key ∨ e.2.m_shortKey = key) → e.2 = md) :
    Executor.setModuleLoop w key l st =
      ({ st with m_module := md, m_nodePlugin := some md.m_longKey,
                 out := st.out ++ [.init md.m_longKey] },
       if w.init md.m_longKey then .ok () else .threw (.exception "Plugin unavailable.")) := by
  induction l with
  | nil =>
    obtain ⟨e, he, _⟩ := hmem
    cases he
  | cons hd rest ih =>
    by_cases hm : hd.2.m_longKey = key ∨ hd.2.m_shortKey = key
    · have hhd : hd.2 = md := huniq hd (List.mem_cons_self _ _) hm
      rw [Executor.setModuleLoop_remote w key hd rest st hm (by rw [hhd]; exact hremote), hhd]
    · rw [Executor.setModuleLoop_skip w key hd rest st hm]
      apply ih
      · obtain ⟨e, he, hk⟩ := hmem
        rcases List.mem_cons.1 he with rfl | he
        · exact absurd (hk ▸ hkey) hm
        · exact ⟨e, he, hk⟩
      · exact fun e he => huniq e (List.mem_cons_of_mem _ he)

theorem Executor.setModule_unique_remote (w : World) (st : Executor) (key : String)
    (md : Module) (hmem : ∃ e ∈ st.m_modules, e.2 = md)
    (hmd : md.m_longKey = key ∨ md.m_shortKey = key) (hremote : md.m_isLocal = false)
    (huniq : ∀ e ∈ st.m_modules, (e.2.m_longKey = key ∨ e.2.m_shortKey = key) → e.2 = md)
    (hinit : w.init md.m_longKey = true) :
    st.setModule w key =
      ({ st with m_module := md, m_nodePlugin := some md.m_longKey,
                 out := st.out ++ [.init md.m_longKey] }, .ok ()) := by
  unfold Executor.setModule
  rw [Executor.setModuleLoop_unique_remote w key md st.m_modules st hmem hmd hremote huniq, hinit]
  rfl

/-- Selection of a remote module `md` by a token that local modules may carry
as well, on an executor whose module command set, and whose local command set
stored under the token if any, hold nothing but their help command. -/
theorem Executor.setModuleLoop_remote_target (w : World) (key : String) (md : Module)
    (l : List (String × Module)) (st : Executor)
    (hmem : ∃ e ∈ l, e.2 = md) (hmd : md.m_longKey = key ∨ md.m_shortKey = key)
    (hremote : md.m_isLocal = false)
    (huniq : ∀ e ∈ l, (e.2.m_longKey = key ∨ e.2.m_shortKey = key) →
      e.2.m_isLocal = false → e.2 = md)
    (hset : ∃ a, st.m_moduleCmdSet = CommandSet.new a)
    (hloc : ∀ cs, StdMap.find st.m_localModules key = some cs → ∃ a, cs = CommandSet.new a) :
    (Executor.setModuleLoop w key l st).2 =
      (if w.init md.m_longKey then .ok () else .threw (.exception "Plugin unavailable.")) ∧
    (Executor.setModuleLoop w key l st).1.m_module = md ∧
    (Executor.setModuleLoop w key l st).1.m_nodePlugin = some md.m_longKey ∧
    (Executor.setModuleLoop w key l st).1.out = st.out ++ [.init md.m_longKey] ∧
    (∃ a, (Executor.setModuleLoop w key l st).1.m_moduleCmdSet = CommandSet.new a) ∧
    (Executor.setModuleLoop w key l st).1.m_modules = st.m_modules ∧
    (Executor.setModuleLoop w key l st).1.m_localCmdSet = st.m_localCmdSet := by
  induction l generalizing st with
  | nil =>
    obtain ⟨e, he, _⟩ := hmem
    cases he
  | cons hd tl ih =>
    by_cases hm : hd.2.m_longKey = key ∨ hd.2.m_shortKey = key
    · cases hl : hd.2.m_isLocal with
      | false =>
        have hhd : hd.2 = md := huniq hd (List.mem_cons_self _ _) hm hl
        rw [Executor.setModuleLoop_remote w key hd tl st hm hl, hhd]
        exact ⟨rfl, rfl, rfl, rfl, hset, rfl, rfl⟩
      | true =>
        rw [Executor.setModuleLoop_local w key hd tl st hm hl]
        obtain ⟨h1, h2, h3, h4, h5, _⟩ :=
          Executor.localModulesAt_new { st with m_module := hd.2 } key hloc
        have hmem' : ∃ e ∈ tl, e.2 = md := by
          obtain ⟨e, he, hk⟩ := hmem
          rcases List.mem_cons.1 he with rfl | he
          · rw [hk, hremote] at hl
            cases hl
          · exact ⟨e, he, hk⟩
        obtain ⟨r1, r2, r3, r4, r5, r6, r7⟩ := ih
          { (({ st with m_module := hd.2 } : Executor).localModulesAt key).1 with
            m_moduleCmdSet := (({ st with m_module := hd.2 } : Executor).localModulesAt key).2 }
          hmem' (fun e he => huniq e (List.mem_cons_of_mem _ he)) h1 h2
        exact ⟨r1, r2, r3, r4.trans (by rw [show _ = st.out from h3]), r5,
          r6.trans h4, r7.trans h5⟩
    · rw [Executor.setModuleLoop_skip w key hd tl st hm]
      apply ih st _ (fun e he => huniq e (List.mem_cons_of_mem _ he)) hset hloc
      obtain ⟨e, he, hk⟩ := hmem
      rcases List.mem_cons.1 he with rfl | he
      · exact absurd (hk ▸ hmd) hm
      · exact ⟨e, he, hk⟩

/-- On an executor on which only registrations have run, selecting a registered
remote module by its non-empty long key initialises its plugin, makes it the
active module and leaves a module command set that holds only a help command. -/
theorem Executor.setModule_registered (w : World) (st : Executor) (md : Module)
    (hst : RegisteredInv st) (hmem : ∃ e ∈ st.m_modules, e.2 = md)
    (hkey : md.m_longKey ≠ "") (hremote : md.m_isLocal = false) :
    (st.setModule w md.m_longKey).2 =
      (if w.init md.m_longKey then .ok () else .threw (.exception "Plugin unavailable.")) ∧
    (st.setModule w md.m_longKey).1.m_module = md ∧
    (st.setModule w md.m_longKey).1.m_nodePlugin = some md.m_longKey ∧
    (st.setModule w md.m_longKey).1.out = st.out ++ [.init md.m_longKey] ∧
    (∃ a, (st.setModule w md.m_longKey).1.m_moduleCmdSet = CommandSet.new a) ∧
    (st.setModule w md.m_longKey).1.m_modules = st.m_modules ∧
    (st.setModule w md.m_longKey).1.m_localCmdSet = st.m_localCmdSet := by
  obtain ⟨hreg, hshort, hlocal, hset⟩ := hst
  obtain ⟨e0, he0, hmd0⟩ := hmem
  have hinj : ∀ e1 ∈ st.m_modules, ∀ e2 ∈ st.m_modules,
      e1.2.m_longKey = e2.2.m_longKey → e1 = e2 :=
    fun e1 h1 e2 h2 heq => List.inj_on_of_nodup_map hreg.longKey_nodup h1 h2 heq
  unfold Executor.setModule
  apply Executor.setModuleLoop_remote_target w md.m_longKey md st.m_modules st
    ⟨e0, he0, hmd0⟩ (Or.inl rfl) hremote
  · intro e he hm hl
    rcases hm with hm | hm
    · rw [hinj e he e0 he0 (by rw [hm, hmd0]), hmd0]
    · rw [hshort e he hl] at hm
      exact absurd hm.symm hkey
  · exact ⟨1, hset⟩
  · intro cs hcs
    obtain ⟨e, he, hek, hel⟩ := hlocal md.m_longKey (by rw [hcs]; rfl)
    have : e = e0 := hinj e he e0 he0 (by rw [← hreg.2 e he, hek, hmd0])
    rw [this, hmd0, hremote] at hel
    cases hel

/-! ### Resolving a command -/

theorem Executor.getCommandFromModule_setLocal (w : World) (st : Executor) (cs : CommandSet)
    (cmd : String) :
    Executor.getCommandFromModule w { st with m_localCmdSet := cs } cmd =
      ({ (st.getCommandFromModule w cmd).1 with m_localCmdSet := cs },
       (st.getCommandFromModule w cmd).2) := by
  unfold Executor.getCommandFromModule
  cases hp : st.m_nodePlugin with
  | none => simp [hp]
  | some node =>
    simp only [hp]
    cases hd : w.getCliCommandDescription node cmd with
    | failed t => simp [hd]
    | done d =>
      simp only [hd]
      split_ifs <;> rfl

theorem Executor.getCommandFromModule_frame (w : World) (st : Executor) (cmd : String) :
    (st.getCommandFromModule w cmd).1.m_module = st.m_module ∧
    (st.getCommandFromModule w cmd).1.m_moduleCmdSet = st.m_moduleCmdSet ∧
    (st.getCommandFromModule w cmd).1.m_nodePlugin = st.m_nodePlugin ∧
    (st.getCommandFromModule w cmd).1.m_modules = st.m_modules ∧
    (st.getCommandFromModule w cmd).1.m_localCmdSet = st.m_localCmdSet := by
  unfold Executor.getCommandFromModule
  cases hp : st.m_nodePlugin with
  | none => simp [hp]
  | some node =>
    simp only
    cases hd : w.getCliCommandDescription node cmd with
    | failed t => simp [hp]
    | done d =>
      simp only
      split_ifs <;> simp [hp]

theorem Executor.getCommandFromModule_some (w : World) (st : Executor) (cmd : String)
    (c : Command) (h : (st.getCommandFromModule w cmd).2 = .ok (some c)) :
    ∃ node desc, st.m_nodePlugin = some node ∧
      w.getCliCommandDescription node cmd = .done desc ∧ w.isCommandValid desc = true ∧
      c = CommandProtobuf st.heap desc := by
  unfold Executor.getCommandFromModule at h
  cases hp : st.m_nodePlugin with
  | none => simp [hp] at h
  | some node =>
    simp only [hp] at h
    cases hd : w.getCliCommandDescription node cmd with
    | failed t => simp [hd] at h
    | done d =>
      simp only [hd] at h
      split_ifs at h with hv
      · simp only [Res.ok.injEq, Option.some.injEq] at h
        exact ⟨node, d, rfl, hd, hv, h.symm⟩
      · simp at h

theorem Executor.getCommandFromModule_notFound (w : World) (st : Executor) (node cmd : String)
    (desc : CliCommand) (hplugin : st.m_nodePlugin = some node)
    (hlookup : w.getCliCommandDescription node cmd = .done desc)
    (hnotfound : w.isCommandValid desc = false) :
    st.getCommandFromModule w cmd =
      ({ st with out := st.out ++ [.getCliCommandDescription node cmd] }, .ok none) := by
  simp [Executor.getCommandFromModule, hplugin, hlookup, hnotfound]

theorem CommandSet.new_hasCmd (a : Nat) (cmd : String) (h : cmd ≠ "help") :
    (CommandSet.new a).hasCmd cmd = false := by
  simp [CommandSet.new, CommandSet.hasCmd, CommandSet.getCmd, CmdHelp, Command.hasKey,
    Ne.symm h]

theorem CommandSet.hasCmd_of_mem (cs : CommandSet) (c : Command) (name : String)
    (hc : c ∈ cs.m_cmds) (hk : c.hasKey name = true) :
    cs.hasCmd name = true ∧ ∃ c', cs.getCmd name = some c' ∧ c'.hasKey name = true := by
  unfold CommandSet.hasCmd CommandSet.getCmd
  cases hf : cs.m_cmds.find? (fun c => c.hasKey name) with
  | none =>
    have := List.find?_eq_none.1 hf c hc
    simp [hk] at this
  | some c' =>
    exact ⟨rfl, c', rfl, by simpa using List.find?_some hf⟩

theorem Executor.validateCommand_local (w : World) (st : Executor) (key : String)
    (rest : CLIList) (hkey : key ≠ "") (hmod : st.isModuleExistent key = false) :
    st.validateCommand w ({ validKeyName := key } :: rest) =
      (st, rest, .ok (st.m_localCmdSet.getCmd key)) := by
  simp [Executor.validateCommand, CLIList.nextElement, hkey, hmod]

theorem Executor.validateCommand_threw (w : World) (st st1 : Executor) (key : String)
    (rest : CLIList) (e : Exn) (hkey : key ≠ "") (hmod : st.isModuleExistent key = true)
    (hset : st.setModule w key = (st1, .threw e)) :
    st.validateCommand w ({ validKeyName := key } :: rest) = (st1, rest, .threw e) := by
  simp [Executor.validateCommand, CLIList.nextElement, hkey, hmod, hset]

theorem Executor.validateCommand_nil (w : World) (st st1 : Executor) (key : String)
    (hkey : key ≠ "") (hmod : st.isModuleExistent key = true)
    (hset : st.setModule w key = (st1, .ok ())) :
    st.validateCommand w [{ validKeyName := key }] = (st1, [], .ok none) := by
  simp [Executor.validateCommand, CLIList.nextElement, CLIList.hasNext, hkey, hmod, hset]

theorem Executor.validateCommand_noKey (w : World) (st st1 : Executor) (key : String)
    (rest : CLIList) (hkey : key ≠ "") (hmod : st.isModuleExistent key = true)
    (hset : st.setModule w key = (st1, .ok ())) :
    st.validateCommand w ({ validKeyName := key } :: { validKeyName := "" } :: rest) =
      (st1, rest, .ok none) := by
  simp [Executor.validateCommand, CLIList.nextElement, CLIList.hasNext, hkey, hmod, hset]

theorem Executor.validateCommand_has (w : World) (st st1 : Executor) (key cmd : String)
    (rest : CLIList) (hkey : key ≠ "") (hmod : st.isModuleExistent key = true)
    (hset : st.setModule w key = (st1, .ok ())) (hcmd : cmd ≠ "")
    (hhas : st1.m_moduleCmdSet.hasCmd cmd = true) :
    st.validateCommand w ({ validKeyName := key } :: { validKeyName := cmd } :: rest) =
      (st1, rest, .ok (st1.m_moduleCmdSet.getCmd cmd)) := by
  simp [Executor.validateCommand, CLIList.nextElement, CLIList.hasNext, hkey, hmod, hset, hcmd,
    hhas]

theorem Executor.validateCommand_fetch (w : World) (st st1 : Executor) (key cmd : String)
    (rest : CLIList) (hkey : key ≠ "") (hmod : st.isModuleExistent key = true)
    (hset : st.setModule w key = (st1, .ok ())) (hcmd : cmd ≠ "")
    (hhas : st1.m_moduleCmdSet.hasCmd cmd = false) :
    st.validateCommand w ({ validKeyName := key } :: { validKeyName := cmd } :: rest) =
      ((st1.getCommandFromModule w cmd).1, rest, (st1.getCommandFromModule w cmd).2) := by
  simp [Executor.validateCommand, CLIList.nextElement, CLIList.hasNext, hkey, hmod, hset, hcmd,
    hhas]

theorem Executor.validateCommand_loaded (w : World) (st : Executor) (key cmd : String)
    (md : Module) (rest : CLIList) (hkey : key ≠ "") (hcmd : cmd ≠ "")
    (hmem : ∃ e ∈ st.m_modules, e.2 = md)
    (hmd : md.m_longKey = key ∨ md.m_shortKey = key) (hremote : md.m_isLocal = false)
    (huniq : ∀ e ∈ st.m_modules, (e.2.m_longKey = key ∨ e.2.m_shortKey = key) → e.2 = md)
    (hinit : w.init md.m_longKey = true)
    (c : Command) (hc : c ∈ st.m_moduleCmdSet.m_cmds) (hk : c.hasKey cmd = true) :
    (st.validateCommand w ({ validKeyName := key } :: { validKeyName := cmd } :: rest)).1.out =
        st.out ++ [.init md.m_longKey] ∧
      ∃ c' : Command, c'.hasKey cmd = true ∧
        (st.validateCommand w
          ({ validKeyName := key } :: { validKeyName := cmd } :: rest)).2.2 = .ok (some c') := by
  have hset := Executor.setModule_unique_remote w st key md hmem hmd hremote huniq hinit
  obtain ⟨hhas, c', hget, hck⟩ := CommandSet.hasCmd_of_mem st.m_moduleCmdSet c cmd hc hk
  rw [Executor.validateCommand_has w st _ key cmd rest hkey
    (Executor.isModuleExistent_of_mem st key md hmem hmd) hset hcmd hhas]
  exact ⟨rfl, c', hck, by rw [← hget]⟩

theorem StdMap.find_mem {α : Type} (m : List (String × α)) (k : String) (v : α)
    (h : StdMap.find m k = some v) : (k, v) ∈ m := by
  induction m with
  | nil => simp [StdMap.find] at h
  | cons hd tl ih =>
    obtain ⟨k', v'⟩ := hd
    unfold StdMap.find at h
    split_ifs at h with h1
    · simp only [Option.some.injEq] at h
      subst h1 h
      exact List.mem_cons_self _ _
    · exact List.mem_cons_of_mem _ (ih h)

theorem Executor.localModulesAt_separate (st : Executor) (key : String) (a : Nat)
    (h : st.Separate a) :
    (∀ cs : CommandSet, Executor.Separate
      { (st.localModulesAt key).1 with m_moduleCmdSet := cs } a ↔
        ∀ c ∈ cs.m_cmds, c.addr ≠ a) ∧
    (∀ c ∈ (st.localModulesAt key).2.m_cmds, c.addr ≠ a) := by
  obtain ⟨h1, h2, h3⟩ := h
  unfold Executor.localModulesAt
  cases hf : StdMap.find st.m_localModules key with
  | some cs =>
    refine ⟨fun cs' => ⟨fun hs => hs.2.1, fun hs => ⟨h1, hs, h3⟩⟩, ?_⟩
    exact h3 (key, cs) (StdMap.find_mem _ _ _ hf)
  | none =>
    have hnew : ∀ c ∈ (CommandSet.new st.heap).m_cmds, c.addr ≠ a := by
      intro c hc
      simp only [CommandSet.new, List.mem_singleton] at hc
      subst hc
      exact Nat.ne_of_gt h1
    refine ⟨fun cs' => ⟨fun hs => hs.2.1, fun hs => ⟨Nat.lt_succ_of_lt h1, hs, ?_⟩⟩, hnew⟩
    intro e he
    rcases StdMap.mem_assign _ _ _ e he with rfl | he
    · exact hnew
    · exact h3 e he

theorem Executor.setModuleLoop_separate (w : World) (key : String) (a : Nat)
    (l : List (String × Module)) (st : Executor) (h : st.Separate a) :
    (Executor.setModuleLoop w key l st).1.Separate a := by
  induction l generalizing st with
  | nil => exact h
  | cons md rest ih =>
    by_cases hm : md.2.m_longKey = key ∨ md.2.m_shortKey = key
    · cases hl : md.2.m_isLocal with
      | true =>
        rw [Executor.setModuleLoop_local w key md rest _ hm hl]
        apply ih
        have hsep := Executor.localModulesAt_separate { st with m_module := md.2 } key a h
        exact (hsep.1 _).2 hsep.2
      | false =>
        rw [Executor.setModuleLoop_remote w key md rest _ hm hl]
        exact h
    · rw [Executor.setModuleLoop_skip w key md rest _ hm]
      exact ih st h

theorem Executor.getCommandFromModule_heap (w : World) (st : Executor) (cmd : String) :
    st.heap ≤ (st.getCommandFromModule w cmd).1.heap := by
  unfold Executor.getCommandFromModule
  cases hp : st.m_nodePlugin with
  | none => exact Nat.le_refl _
  | some node =>
    simp only
    cases hd : w.getCliCommandDescription node cmd with
    | failed t => exact Nat.le_refl _
    | done d =>
      simp only
      split_ifs
      · exact Nat.le_succ _
      · exact Nat.le_refl _

theorem Executor.validateCommand_module (w : World) (st : Executor) (key : String)
    (rest : CLIList) (hkey : key ≠ "") (hmod : st.isModuleExistent key = true) :

      ((st.validateCommand w ({ validKeyName := key } :: rest)).1.m_module.m_longKey = key ∨
        (st.validateCommand w ({ validKeyName := key } :: rest)).1.m_module.m_shortKey = key) ∧
      (∀ c : Command,
        (st.validateCommand w ({ validKeyName := key } :: rest)).2.2 = .ok (some c) →
        ∃ (e : CLIElement) (rest' : CLIList), rest = e :: rest' ∧ e.validKeyName ≠ "" ∧
          ((st.validateCommand w ({ validKeyName := key } :: rest)).1.m_moduleCmdSet.getCmd
              e.validKeyName = some c ∨
           ∃ (node : String) (desc : CliCommand) (addr : Nat),
              (st.validateCommand w ({ validKeyName := key } :: rest)).1.m_nodePlugin = some node ∧
              w.getCliCommandDescription node e.validKeyName = .done desc ∧
              c = CommandProtobuf addr desc)) ∧
      (∀ cs : CommandSet,
        Executor.validateCommand w { st with m_localCmdSet := cs }
            ({ validKeyName := key } :: rest) =
          ({ (st.validateCommand w ({ validKeyName := key } :: rest)).1 with
              m_localCmdSet := cs },
           (st.validateCommand w ({ validKeyName := key } :: rest)).2.1,
           (st.validateCommand w ({ validKeyName := key } :: rest)).2.2)) ∧
      (∀ x : Command, st.m_localCmdSet.getCmd key = some x → st.Separate x.addr →
        ∀ c : Command,
          (st.validateCommand w ({ validKeyName := key } :: rest)).2.2 = .ok (some c) →
          c.addr ≠ x.addr) := by
  have hsel : (st.setModule w key).1.m_module.m_longKey = key ∨
      (st.setModule w key).1.m_module.m_shortKey = key :=
    Executor.setModuleLoop_module w key st.m_modules st
      (Or.inr ((Executor.isModuleExistentLoop_eq_true _ _).1 hmod))
  have hmod' : ∀ cs : CommandSet,
      Executor.isModuleExistent { st with m_localCmdSet := cs } key = true := fun _ => hmod
  have hset' : ∀ cs : CommandSet,
      Executor.setModule w { st with m_localCmdSet := cs } key =
        ({ (st.setModule w key).1 with m_localCmdSet := cs }, (st.setModule w key).2) :=
    fun cs => Executor.setModuleLoop_setLocal w key cs st.m_modules st
  have hsep : ∀ a : Nat, st.Separate a → (st.setModule w key).1.Separate a :=
    fun a ha => Executor.setModuleLoop_separate w key a st.m_modules st ha
  rcases hs : st.setModule w key with ⟨st1, r⟩
  rw [hs] at hsel hsep
  simp only [hs] at hset'
  cases r with
  | threw e =>
    have hv := Executor.validateCommand_threw w st st1 key rest e hkey hmod hs
    refine ⟨by rw [hv]; exact hsel, ?_, fun cs => ?_, ?_⟩
    · intro c hc
      rw [hv] at hc
      cases hc
    · rw [hv]
      exact Executor.validateCommand_threw w _ _ key rest e hkey (hmod' cs) (hset' cs)
    · intro x _ _ c hc
      rw [hv] at hc
      cases hc
  | ok u =>
    cases u
    cases rest with
    | nil =>
      have hv := Executor.validateCommand_nil w st st1 key hkey hmod hs
      refine ⟨by rw [hv]; exact hsel, ?_, fun cs => ?_, ?_⟩
      · intro c hc
        rw [hv] at hc
        cases hc
      · rw [hv]
        exact Executor.validateCommand_nil w _ _ key hkey (hmod' cs) (hset' cs)
      · intro x _ _ c hc
        rw [hv] at hc
        cases hc
    | cons e rest' =>
      obtain ⟨cmd⟩ := e
      by_cases hcmd : cmd = ""
      · subst hcmd
        have hv := Executor.validateCommand_noKey w st st1 key rest' hkey hmod hs
        refine ⟨by rw [hv]; exact hsel, ?_, fun cs => ?_, ?_⟩
        · intro c hc
          rw [hv] at hc
          cases hc
        · rw [hv]
          exact Executor.validateCommand_noKey w _ _ key rest' hkey (hmod' cs) (hset' cs)
        · intro x _ _ c hc
          rw [hv] at hc
          cases hc
      · cases hhas : st1.m_moduleCmdSet.hasCmd cmd with
        | true =>
          have hv := Executor.validateCommand_has w st st1 key cmd rest' hkey hmod hs hcmd hhas
          refine ⟨by rw [hv]; exact hsel, ?_, fun cs => ?_, ?_⟩
          · intro c hc
            rw [hv] at hc ⊢
            simp only [Res.ok.injEq] at hc
            exact ⟨_, _, rfl, hcmd, Or.inl hc⟩
          · rw [hv]
            exact Executor.validateCommand_has w _ _ key cmd rest' hkey (hmod' cs) (hset' cs)
              hcmd hhas
          · intro x _ hx c hc
            rw [hv] at hc
            simp only [Res.ok.injEq] at hc
            exact (hsep x.addr hx).2.1 c (List.mem_of_find?_eq_some hc)
        | false =>
          have hv := Executor.validateCommand_fetch w st st1 key cmd rest' hkey hmod hs hcmd hhas
          have hfr := Executor.getCommandFromModule_frame w st1 cmd
          refine ⟨?_, ?_, fun cs => ?_, ?_⟩
          · rw [hv]
            simp only [hfr.1]
            exact hsel
          · intro c hc
            rw [hv] at hc ⊢
            obtain ⟨node, desc, hp, hd, _, hcd⟩ :=
              Executor.getCommandFromModule_some w st1 cmd c hc
            refine ⟨_, _, rfl, hcmd, Or.inr ⟨node, desc, st1.heap, ?_, hd, hcd⟩⟩
            simp only [hfr.2.2.1]
            exact hp
          · rw [hv]
            have hv' := Executor.validateCommand_fetch w _ _ key cmd rest' hkey (hmod' cs)
              (hset' cs) hcmd hhas
            rw [hv', Executor.getCommandFromModule_setLocal]
          · intro x _ hx c hc
            rw [hv] at hc
            obtain ⟨node, desc, _, _, _, hcd⟩ :=
              Executor.getCommandFromModule_some w st1 cmd c hc
            rw [hcd]
            exact Nat.ne_of_gt (hsep x.addr hx).1

theorem Executor.localModulesAt_found (st : Executor) (key : String) (cs : CommandSet)
    (h : StdMap.find st.m_localModules key = some cs) : st.localModulesAt key = (st, cs) := by
  simp [Executor.localModulesAt, h]

theorem Executor.setModuleLoop_local_fixed (w : World) (key : String) (md : Module)
    (cs : CommandSet) (l : List (String × Module)) (st : Executor)
    (huniq : ∀ e ∈ l, (e.2.m_longKey = key ∨ e.2.m_shortKey = key) → e.2 = md)
    (hlocal : md.m_isLocal = true) (hm : st.m_module = md) (hc : st.m_moduleCmdSet = cs)
    (hreg : StdMap.find st.m_localModules key = some cs) :
    Executor.setModuleLoop w key l st = (st, .ok ()) := by
  induction l with
  | nil => rfl
  | cons hd tl ih =>
    have ih' := ih (fun e he => huniq e (List.mem_cons_of_mem _ he))
    by_cases hmatch : hd.2.m_longKey = key ∨ hd.2.m_shortKey = key
    · have hhd : hd.2 = md := huniq hd (List.mem_cons_self _ _) hmatch
      rw [Executor.setModuleLoop_local w key hd tl st hmatch (by rw [hhd]; exact hlocal),
        Executor.localModulesAt_found { st with m_module := hd.2 } key cs hreg]
      have hst : ({ ({ st with m_module := hd.2 } : Executor) with m_moduleCmdSet := cs } :
          Executor) = st := by
        cases st
        simp only at hm hc
        subst hm hc
        rw [hhd]
      simp only [hst] 
      exact ih'
    · rw [Executor.setModuleLoop_skip w key hd tl st hmatch]
      exact ih'

theorem Executor.setModuleLoop_unique_local (w : World) (key : String) (md : Module)
    (cs : CommandSet) (l : List (String × Module)) (st : Executor)
    (hmem : ∃ e ∈ l, e.2 = md) (hmd : md.m_longKey = key ∨ md.m_shortKey = key)
    (hlocal : md.m_isLocal = true)
    (huniq : ∀ e ∈ l, (e.2.m_longKey = key ∨ e.2.m_shortKey = key) → e.2 = md)
    (hreg : StdMap.find st.m_localModules key = some cs) :
    Executor.setModuleLoop w key l st =
      ({ st with m_module := md, m_moduleCmdSet := cs }, .ok ()) := by
  induction l with
  | nil =>
    obtain ⟨e, he, _⟩ := hmem
    cases he
  | cons hd tl ih =>
    by_cases hmatch : hd.2.m_longKey = key ∨ hd.2.m_shortKey = key
    · have hhd : hd.2 = md := huniq hd (List.mem_cons_self _ _) hmatch
      rw [Executor.setModuleLoop_local w key hd tl st hmatch (by rw [hhd]; exact hlocal),
        Executor.localModulesAt_found { st with m_module := hd.2 } key cs hreg, hhd]
      exact Executor.setModuleLoop_local_fixed w key md cs tl
        { st with m_module := md, m_moduleCmdSet := cs }
        (fun e he => huniq e (List.mem_cons_of_mem _ he)) hlocal rfl rfl hreg
    · rw [Executor.setModuleLoop_skip w key hd tl st hmatch]
      apply ih
      · obtain ⟨e, he, hk⟩ := hmem
        rcases List.mem_cons.1 he with rfl | he
        · exact absurd (hk ▸ hmd) hmatch
        · exact ⟨e, he, hk⟩
      · exact fun e he => huniq e (List.mem_cons_of_mem _ he)

theorem Executor.getCommandFromModule_none (w : World) (st : Executor) (cmd : String)
    (h : st.m_nodePlugin = none) : st.getCommandFromModule w cmd = (st, .ok none) := by
  simp [Executor.getCommandFromModule, h]

theorem Executor.getCommandFromModule_plugin (w : World) (st : Executor) (node cmd : String)
    (h : st.m_nodePlugin = some node) :
    (∀ t, w.getCliCommandDescription node cmd = .failed t →
      (st.getCommandFromModule w cmd).2 =
        .threw (.invalidParameter ("Cannot get command description, error: " ++ t))) ∧
    (∀ d, w.getCliCommandDescription node cmd = .done d → w.isCommandValid d = true →
      (st.getCommandFromModule w cmd).2 =
        .ok (some (CommandProtobuf ((st.getCommandFromModule w cmd).1.heap - 1) d))) ∧
    (∀ d, w.getCliCommandDescription node cmd = .done d → w.isCommandValid d = false →
      (st.getCommandFromModule w cmd).2 = .ok none) := by
  refine ⟨fun t ht => ?_, fun d hd hv => ?_, fun d hd hv => ?_⟩
  · simp [Executor.getCommandFromModule, h, ht]
  · simp [Executor.getCommandFromModule, h, hd, hv]
  · simp [Executor.getCommandFromModule, h, hd, hv]

/-- Resolution after the selection of a local module by its long key: the next
token is looked up in the command set registered for the module. -/
theorem Executor.validateCommand_local_module (w : World) (st : Executor) (key : String)
    (rest : CLIList) (hkey : key ≠ "") (md : Module) (cs : CommandSet)
    (hmem : ∃ e ∈ st.m_modules, e.2 = md) (hmd : md.m_longKey = key)
    (hlocal : md.m_isLocal = true)
    (huniq : ∀ e ∈ st.m_modules, (e.2.m_longKey = key ∨ e.2.m_shortKey = key) → e.2 = md)
    (hreg : StdMap.find st.m_localModules md.m_longKey = some cs)
    (hplugin : st.m_nodePlugin = none) :
    (st.validateCommand w ({ validKeyName := key } :: rest)).1 =
      { st with m_module := md, m_moduleCmdSet := cs } ∧
    (rest = [] → (st.validateCommand w ({ validKeyName := key } :: rest)).2 = ([], .ok none)) ∧
    (∀ (e : CLIElement) (rest' : CLIList), rest = e :: rest' →
      (st.validateCommand w ({ validKeyName := key } :: rest)).2 =
        (rest', .ok (if e.validKeyName = "" then none else cs.getCmd e.validKeyName))) := by
  have hmod := Executor.isModuleExistent_of_mem st key md hmem (Or.inl hmd)
  have hset : st.setModule w key =
      ({ st with m_module := md, m_moduleCmdSet := cs }, .ok ()) :=
    Executor.setModuleLoop_unique_local w key md cs st.m_modules st hmem (Or.inl hmd) hlocal
      huniq (by rw [← hmd]; exact hreg)
  cases rest with
  | nil =>
    have hv := Executor.validateCommand_nil w st _ key hkey hmod hset
    rw [hv]
    exact ⟨rfl, fun _ => rfl, fun e rest' h => (by cases h)⟩
  | cons e rest' =>
    obtain ⟨cmd⟩ := e
    by_cases hcmd : cmd = ""
    · subst hcmd
      have hv := Executor.validateCommand_noKey w st _ key rest' hkey hmod hset
      rw [hv]
      refine ⟨rfl, (fun h => by cases h), fun e r h => ?_⟩
      cases h
      simp
    · cases hhas : cs.hasCmd cmd with
      | true =>
        have hv := Executor.validateCommand_has w st _ key cmd rest' hkey hmod hset hcmd hhas
        rw [hv]
        refine ⟨rfl, (fun h => by cases h), fun e r h => ?_⟩
        cases h
        simp [hcmd]
      | false =>
        have hv := Executor.validateCommand_fetch w st _ key cmd rest' hkey hmod hset hcmd hhas
        have hnone : cs.getCmd cmd = none := by
          unfold CommandSet.hasCmd at hhas
          cases hg : cs.getCmd cmd with
          | none => rfl
          | some c => rw [hg] at hhas; cases hhas
        rw [hv, Executor.getCommandFromModule_none w
          ({ st with m_module := md, m_moduleCmdSet := cs } : Executor) cmd hplugin]
        refine ⟨rfl, (fun h => by cases h), fun e r h => ?_⟩
        cases h
        simp [hcmd, hnone]

/-- Resolution after the selection of a remote module by its long key, on an
executor on which only registrations have run: `help` is the help command of
the module command set, any other token is resolved by the single-command
request to the node of the module. -/
theorem Executor.validateCommand_remote_module (w : World) (st : Executor) (key : String)
    (rest : CLIList) (hkey : key ≠ "") (md : Module) (hreach : Reachable w st)
    (hmem : ∃ e ∈ st.m_modules, e.2 = md) (hmd : md.m_longKey = key)
    (hremote : md.m_isLocal = false) (hinit : w.init key = true) :
    (st.validateCommand w ({ validKeyName := key } :: rest)).1.m_module = md ∧
    (st.validateCommand w ({ validKeyName := key } :: rest)).1.m_nodePlugin = some key ∧
    (∀ (e : CLIElement) (rest' : CLIList), rest = e :: rest' → e.validKeyName ≠ "" →
      (st.validateCommand w ({ validKeyName := key } :: rest)).2.1 = rest' ∧
      (e.validKeyName = "help" →
        (st.validateCommand w ({ validKeyName := key } :: rest)).2.2 =
          .ok (some
            (st.validateCommand w ({ validKeyName := key } :: rest)).1.m_moduleCmdSet.m_helpCmd)) ∧
      (e.validKeyName ≠ "help" →
        (∀ t, w.getCliCommandDescription key e.validKeyName = .failed t →
          (st.validateCommand w ({ validKeyName := key } :: rest)).2.2 =
            .threw (.invalidParameter ("Cannot get command description, error: " ++ t))) ∧
        (∀ d, w.getCliCommandDescription key e.validKeyName = .done d →
          w.isCommandValid d = true →
          (st.validateCommand w ({ validKeyName := key } :: rest)).2.2 =
            .ok (some (CommandProtobuf
              ((st.validateCommand w ({ validKeyName := key } :: rest)).1.heap - 1) d))) ∧
        (∀ d, w.getCliCommandDescription key e.validKeyName = .done d →
          w.isCommandValid d = false →
          (st.validateCommand w ({ validKeyName := key } :: rest)).2.2 = .ok none))) := by
  subst hmd
  have hmod := Executor.isModuleExistent_of_mem st md.m_longKey md hmem (Or.inl rfl)
  obtain ⟨h1, h2, h3, _, ⟨a, h5⟩, _, _⟩ :=
    Executor.setModule_registered w st md hreach.registeredInv hmem hkey hremote
  rw [hinit] at h1
  rcases hs : st.setModule w md.m_longKey with ⟨st1, r⟩
  rw [hs] at h1 h2 h3 h5
  simp only at h1 h2 h3 h5
  subst h1
  cases rest with
  | nil =>
    have hv := Executor.validateCommand_nil w st st1 md.m_longKey hkey hmod hs
    rw [hv]
    exact ⟨h2, h3, fun e rest' h => (by cases h)⟩
  | cons e rest' =>
    obtain ⟨cmd⟩ := e
    by_cases hcmd : cmd = ""
    · subst hcmd
      have hv := Executor.validateCommand_noKey w st st1 md.m_longKey rest' hkey hmod hs
      rw [hv]
      refine ⟨h2, h3, fun e r h hne => ?_⟩
      cases h
      exact absurd rfl hne
    · by_cases hhelp : cmd = "help"
      · subst hhelp
        have hhas : st1.m_moduleCmdSet.hasCmd "help" = true := by
          rw [h5]
          simp [CommandSet.new, CommandSet.hasCmd, CommandSet.getCmd, CmdHelp, Command.hasKey]
        have hv := Executor.validateCommand_has w st st1 md.m_longKey "help" rest' hkey hmod hs
          hcmd hhas
        rw [hv]
        refine ⟨h2, h3, fun e r h _ => ?_⟩
        cases h
        refine ⟨rfl, fun _ => ?_, fun hne => absurd rfl hne⟩
        simp only [h5]
        rfl
      · have hhas : st1.m_moduleCmdSet.hasCmd cmd = false := by
          rw [h5]
          exact CommandSet.new_hasCmd a cmd hhelp
        have hv := Executor.validateCommand_fetch w st st1 md.m_longKey cmd rest' hkey hmod hs
          hcmd hhas
        have hfr := Executor.getCommandFromModule_frame w st1 cmd
        have hpl := Executor.getCommandFromModule_plugin w st1 md.m_longKey cmd h3
        rw [hv]
        refine ⟨hfr.1.trans h2, hfr.2.2.1.trans h3, fun e r h _ => ?_⟩
        cases h
        exact ⟨rfl, fun hh => absurd hh hhelp, fun _ => hpl⟩

/-- Claim C3, as amended.  For a non-empty first token that is the long or short
key of a registered module, also when it is the key of a local command:
`validateCommand` selects a module carrying that key, any command it returns is
looked up in the module command set or described by the node, the whole result
is the same whatever the local command set holds, and the command returned is
never the object of a local command that is stored in no module command set.
When the token is the long key of a local module, no other module carries it
and no node plugin is set, that module becomes the active one and the next
token, if any, is looked up in the command set registered for the module (null
when the set has no such command), with nothing else changed.  When the token is
the long key of a remote module whose plugin initialises, on an executor on
which only registrations have run, that module becomes the active one and the
next token is resolved as `help` by the module command set and otherwise by the
single-command request to the node of that module.  When the token matches no
module key, the result is the lookup of the token in the local command set and
the state is unchanged. -/
theorem validateCommand_module_first (w : World) (st : Executor) (key : String)
    (rest : CLIList) (hkey : key ≠ "") :
    (st.isModuleExistent key = true →
      ((st.validateCommand w ({ validKeyName := key } :: rest)).1.m_module.m_longKey = key ∨
        (st.validateCommand w ({ validKeyName := key } :: rest)).1.m_module.m_shortKey = key) ∧
      (∀ c : Command,
        (st.validateCommand w ({ validKeyName := key } :: rest)).2.2 = .ok (some c) →
        ∃ (e : CLIElement) (rest' : CLIList), rest = e :: rest' ∧ e.validKeyName ≠ "" ∧
          ((st.validateCommand w ({ validKeyName := key } :: rest)).1.m_moduleCmdSet.getCmd
              e.validKeyName = some c ∨
           ∃ (node : String) (desc : CliCommand) (addr : Nat),
              (st.validateCommand w ({ validKeyName := key } :: rest)).1.m_nodePlugin = some node ∧
              w.getCliCommandDescription node e.validKeyName = .done desc ∧
              c = CommandProtobuf addr desc)) ∧
      (∀ cs : CommandSet,
        Executor.validateCommand w { st with m_localCmdSet := cs }
            ({ validKeyName := key } :: rest) =
          ({ (st.validateCommand w ({ validKeyName := key } :: rest)).1 with
              m_localCmdSet := cs },
           (st.validateCommand w ({ validKeyName := key } :: rest)).2.1,
           (st.validateCommand w ({ validKeyName := key } :: rest)).2.2)) ∧
      (∀ x : Command, st.m_localCmdSet.getCmd key = some x → st.Separate x.addr →
        ∀ c : Command,
          (st.validateCommand w ({ validKeyName := key } :: rest)).2.2 = .ok (some c) →
          c.addr ≠ x.addr)) ∧
    (∀ (md : Module) (cs : CommandSet), (∃ e ∈ st.m_modules, e.2 = md) →
      md.m_longKey = key → md.m_isLocal = true →
      (∀ e ∈ st.m_modules, (e.2.m_longKey = key ∨ e.2.m_shortKey = key) → e.2 = md) →
      StdMap.find st.m_localModules md.m_longKey = some cs → st.m_nodePlugin = none →
      (st.validateCommand w ({ validKeyName := key } :: rest)).1 =
        { st with m_module := md, m_moduleCmdSet := cs } ∧
      (rest = [] →
        (st.validateCommand w ({ validKeyName := key } :: rest)).2 = ([], .ok none)) ∧
      (∀ (e : CLIElement) (rest' : CLIList), rest = e :: rest' →
        (st.validateCommand w ({ validKeyName := key } :: rest)).2 =
          (rest', .ok (if e.validKeyName = "" then none else cs.getCmd e.validKeyName)))) ∧
    (∀ md : Module, Reachable w st → (∃ e ∈ st.m_modules, e.2 = md) →
      md.m_longKey = key → md.m_isLocal = false → w.init key = true →
      (st.validateCommand w ({ validKeyName := key } :: rest)).1.m_module = md ∧
      (st.validateCommand w ({ validKeyName := key } :: rest)).1.m_nodePlugin = some key ∧
      (∀ (e : CLIElement) (rest' : CLIList), rest = e :: rest' → e.validKeyName ≠ "" →
        (st.validateCommand w ({ validKeyName := key } :: rest)).2.1 = rest' ∧
        (e.validKeyName = "help" →
          (st.validateCommand w ({ validKeyName := key } :: rest)).2.2 =
            .ok (some
              (st.validateCommand w
                ({ validKeyName := key } :: rest)).1.m_moduleCmdSet.m_helpCmd)) ∧
        (e.validKeyName ≠ "help" →
          (∀ t, w.getCliCommandDescription key e.validKeyName = .failed t →
            (st.validateCommand w ({ validKeyName := key } :: rest)).2.2 =
              .threw (.invalidParameter ("Cannot get command description, error: " ++ t))) ∧
          (∀ d, w.getCliCommandDescription key e.validKeyName = .done d →
            w.isCommandValid d = true →
            (st.validateCommand w ({ validKeyName := key } :: rest)).2.2 =
              .ok (some (CommandProtobuf
                ((st.validateCommand w ({ validKeyName := key } :: rest)).1.heap - 1) d))) ∧
          (∀ d, w.getCliCommandDescription key e.validKeyName = .done d →
            w.isCommandValid d = false →
            (st.validateCommand w ({ validKeyName := key } :: rest)).2.2 = .ok none)))) ∧
    (st.isModuleExistent key = false →
      st.validateCommand w ({ validKeyName := key } :: rest) =
        (st, rest, .ok (st.m_localCmdSet.getCmd key))) := by
  refine ⟨?_, ?_, ?_, ?_⟩
  · intro hmod
    exact Executor.validateCommand_module w st key rest hkey hmod
  · intro md cs hmem hmd hlocal huniq hreg hplugin
    exact Executor.validateCommand_local_module w st key rest hkey md cs hmem hmd hlocal huniq
      hreg hplugin
  · intro md hreach hmem hmd hremote hinit
    exact Executor.validateCommand_remote_module w st key rest hkey md hreach hmem hmd hremote
      hinit
  · intro hmod
    exact Executor.validateCommand_local w st key rest hkey hmod

/-- Witness of `validateCommand_module_first` on the executor whose local
command set holds commands named `loc`, `modA` and `l`: `[loc, c]` selects the
local module `loc` and returns the command `c` registered for it, never the
local command `loc`; `[modA, cmdX]` selects the remote module `modA` and returns
the command the node describes for `cmdX`. -/
theorem validateCommand_module_first_witness :
    ("loc" ≠ "") ∧
    shadowExecutor.isModuleExistent "loc" = true ∧
    shadowExecutor.m_localCmdSet.getCmd "loc" =
      some (CommandProtobufLocal 5 { name := "loc" }) ∧
    ((shadowExecutor.validateCommand exampleWorld
        [{ validKeyName := "loc" }, { validKeyName := "c" }]).1.m_module.m_longKey = "loc" ∨
     (shadowExecutor.validateCommand exampleWorld
        [{ validKeyName := "loc" }, { validKeyName := "c" }]).1.m_module.m_shortKey = "loc") ∧
    shadowExecutor.Separate 5 ∧
    (∀ c : Command,
      (shadowExecutor.validateCommand exampleWorld
        [{ validKeyName := "loc" }, { validKeyName := "c" }]).2.2 = .ok (some c) →
      c.addr ≠ (CommandProtobufLocal 5 { name := "loc" }).addr) ∧
    (shadowExecutor.validateCommand exampleWorld
        [{ validKeyName := "loc" }, { validKeyName := "c" }]).2 =
      ([], .ok (if ({ validKeyName := "c" } : CLIElement).validKeyName = "" then none
        else CommandSet.getCmd
          { m_cmds := [CmdHelp 2, CommandProtobufLocal 3 { name := "c" },
                       CommandProtobufLocal 4 { name := "d" }],
            m_helpCmd := CmdHelp 2 } ({ validKeyName := "c" } : CLIElement).validKeyName)) ∧
    (shadowExecutor.validateCommand exampleWorld
        [{ validKeyName := "loc" }, { validKeyName := "c" }]).2.2 =
      .ok (some (CommandProtobufLocal 3 { name := "c" })) ∧
    Reachable exampleWorld shadowExecutor ∧
    (shadowExecutor.validateCommand exampleWorld
        [{ validKeyName := "modA" }, { validKeyName := "cmdX" }]).2.2 =
      .ok (some (CommandProtobuf
        ((shadowExecutor.validateCommand exampleWorld
          [{ validKeyName := "modA" }, { validKeyName := "cmdX" }]).1.heap - 1)
        { longKey := "cmdX" })) ∧
    (shadowExecutor.validateCommand exampleWorld
        [{ validKeyName := "modA" }, { validKeyName := "cmdX" }]).2.2 =
      .ok (some (CommandProtobuf 8 { longKey := "cmdX" })) :=
  ⟨by decide, by decide, by decide,
   ((validateCommand_module_first exampleWorld shadowExecutor "loc" [{ validKeyName := "c" }]
      (by decide)).1 (by decide)).1,
   by unfold Executor.Separate; decide,
   ((validateCommand_module_first exampleWorld shadowExecutor "loc" [{ validKeyName := "c" }]
      (by decide)).1 (by decide)).2.2.2 (CommandProtobufLocal 5 { name := "loc" }) (by decide)
      (by unfold Executor.Separate; decide),
   ((validateCommand_module_first exampleWorld shadowExecutor "loc" [{ validKeyName := "c" }]
      (by decide)).2.1
      { m_longKey := "loc", m_shortKey := "l", m_desc := "local module", m_isLocal := true }
      { m_cmds := [CmdHelp 2, CommandProtobufLocal 3 { name := "c" },
                   CommandProtobufLocal 4 { name := "d" }],
        m_helpCmd := CmdHelp 2 }
      (by decide) (by decide) (by decide) (by decide) (by decide) (by decide)).2.2
      { validKeyName := "c" } [] rfl,
   by decide,
   Reachable.addLocalModule1 _ _ (Reachable.addLocalModule _ _ _ _ _ Reachable.new),
   ((((validateCommand_module_first exampleWorld shadowExecutor "modA"
      [{ validKeyName := "cmdX" }] (by decide)).2.2.1 { m_longKey := "modA" }
      (Reachable.addLocalModule1 _ _ (Reachable.addLocalModule _ _ _ _ _ Reachable.new))
      (by decide) (by decide) (by decide) (by decide)).2.2
      { validKeyName := "cmdX" } [] rfl (by decide)).2.2 (by decide)).2.1
      { longKey := "cmdX" } (by decide) (by decide),
   by decide⟩

/-- Claim C3, counterexample.  On the executor whose local command set holds
commands named `loc`, `modA` and `l`, the token `l` is the short key of the
local module `loc` and the key of a local command; `validateCommand` on
`[l, c]` selects the module `loc`, whose registered command set holds `c`, yet
returns the null command.  And after `execute` on `[modA]`, the token `loc` is
the long key of the local module `loc` and the key of a local command, the
command set registered for `loc` holds no `cmdX`, yet `validateCommand` on
`[loc, cmdX]` returns a command described by the node of `modA`. -/
theorem validateCommand_module_first_counterexample :
    (shadowExecutor.isModuleExistent "l" = true ∧
      shadowExecutor.m_localCmdSet.hasCmd "l" = true ∧
      (shadowExecutor.validateCommand exampleWorld
          [{ validKeyName := "l" }, { validKeyName := "c" }]).1.m_module =
        { m_longKey := "loc", m_shortKey := "l", m_desc := "local module", m_isLocal := true } ∧
      (StdMap.find shadowExecutor.m_localModules "loc").map (fun cs => cs.getCmd "c") =
        some (some (CommandProtobufLocal 3 { name := "c" })) ∧
      (shadowExecutor.validateCommand exampleWorld
          [{ validKeyName := "l" }, { validKeyName := "c" }]).2.2 = .ok none) ∧
    (shadowAfterRemote.isModuleExistent "loc" = true ∧
      shadowAfterRemote.m_localCmdSet.hasCmd "loc" = true ∧
      (shadowAfterRemote.validateCommand exampleWorld
          [{ validKeyName := "loc" }, { validKeyName := "cmdX" }]).1.m_module =
        { m_longKey := "loc", m_shortKey := "l", m_desc := "local module", m_isLocal := true } ∧
      (StdMap.find shadowAfterRemote.m_localModules "loc").map (fun cs => cs.getCmd "cmdX") =
        some none ∧
      (shadowAfterRemote.validateCommand exampleWorld
          [{ validKeyName := "loc" }, { validKeyName := "cmdX" }]).2.2 =
        .ok (some (CommandProtobuf 10 { longKey := "cmdX" }))) := by
  refine ⟨⟨?_, ?_, ?_, ?_, ?_⟩, ⟨?_, ?_, ?_, ?_, ?_⟩⟩ <;> decide

/-- Claim C4, evaluated on the executor with the local module `loc` (short key
`l`, commands `c` and `d`).  Selecting by the short key selects the same module
as selecting by the long key, but leaves a new, empty command set as module
command set instead of the one registered for `loc`; so `[l, c]` resolves to no
command while `[loc, c]` resolves to the command `c`.  The sibling
`loadModuleCommandSet`, which indexes by the long key of the selected module,
finds the registered set. -/
theorem setModule_shortKey_divergence :
    StdMap.find exampleExecutor.m_localModules "loc" =
      some { m_cmds := [CmdHelp 2, CommandProtobufLocal 3 { name := "c" },
                        CommandProtobufLocal 4 { name := "d" }],
             m_helpCmd := CmdHelp 2 } ∧
    (exampleExecutor.setModule exampleWorld "loc").1.m_moduleCmdSet =
      { m_cmds := [CmdHelp 2, CommandProtobufLocal 3 { name := "c" },
                   CommandProtobufLocal 4 { name := "d" }],
        m_helpCmd := CmdHelp 2 } ∧
    (exampleExecutor.setModule exampleWorld "l").1.m_module =
      (exampleExecutor.setModule exampleWorld "loc").1.m_module ∧
    (exampleExecutor.setModule exampleWorld "l").1.m_moduleCmdSet = CommandSet.new 5 ∧
    (exampleExecutor.validateCommand exampleWorld
        [{ validKeyName := "loc" }, { validKeyName := "c" }]).2.2 =
      .ok (some (CommandProtobufLocal 3 { name := "c" })) ∧
    (exampleExecutor.validateCommand exampleWorld
        [{ validKeyName := "l" }, { validKeyName := "c" }]).2.2 = .ok none ∧
    (Executor.loadModuleCommandSet exampleWorld
        (exampleExecutor.setModule exampleWorld "l").1).1.m_moduleCmdSet =
      { m_cmds := [CmdHelp 2, CommandProtobufLocal 3 { name := "c" },
                   CommandProtobufLocal 4 { name := "d" }],
        m_helpCmd := CmdHelp 2 } := by
  refine ⟨?_, ?_, ?_, ?_, ?_, ?_, ?_⟩ <;> decide

/-! ### Loading the command set of a module -/

theorem CommandProtobufs_mem (heap : Nat) (descs : List CliCommand) (d : CliCommand)
    (h : d ∈ descs) : ∃ addr, CommandProtobuf addr d ∈ CommandProtobufs heap descs := by
  induction descs generalizing heap with
  | nil => cases h
  | cons hd tl ih =>
    rcases List.mem_cons.1 h with rfl | h
    · exact ⟨heap, List.mem_cons_self _ _⟩
    · obtain ⟨addr, ha⟩ := ih (heap + 1) h
      exact ⟨addr, List.mem_cons_of_mem _ ha⟩

theorem CommandProtobufs_length (heap : Nat) (descs : List CliCommand) :
    (CommandProtobufs heap descs).length = descs.length := by
  induction descs generalizing heap with
  | nil => rfl
  | cons hd tl ih => simp [CommandProtobufs, ih]

theorem Executor.addCommands_ok (descs : List CliCommand) (heap : Nat) (cs : CommandSet)
    (h : (Executor.addCommands descs heap cs).2.2 = .ok ()) :
    Executor.addCommands descs heap cs =
      (heap + descs.length,
       { cs with m_cmds := cs.m_cmds ++ CommandProtobufs heap descs }, .ok ()) := by
  induction descs generalizing heap cs with
  | nil => simp [Executor.addCommands, CommandProtobufs]
  | cons d rest ih =>
    unfold Executor.addCommands at h ⊢
    cases hadd : cs.addCmd (CommandProtobuf heap d) with
    | threw e => simp [hadd] at h
    | ok cs' =>
      simp only [hadd] at h ⊢
      rw [ih (heap + 1) cs' h]
      unfold CommandSet.addCmd at hadd
      split_ifs at hadd
      simp only [Res.ok.injEq] at hadd
      subst hadd
      simp [CommandProtobufs, Nat.add_assoc, Nat.add_comm 1]

theorem keysAddable_iff (descs : List CliCommand) (heap : Nat) (cs : CommandSet) :
    (Executor.addCommands descs heap cs).2.2 = .ok () ↔
      keysAddable (cs.m_cmds.map Command.keys) descs = true := by
  induction descs generalizing heap cs with
  | nil => simp [Executor.addCommands, keysAddable]
  | cons d rest ih =>
    unfold Executor.addCommands keysAddable
    have hany : (cs.m_cmds.any (fun c => c.longKey == (CommandProtobuf heap d).longKey ||
          ((CommandProtobuf heap d).shortKey != "" &&
            c.shortKey == (CommandProtobuf heap d).shortKey))) =
        ((cs.m_cmds.map Command.keys).any (fun k => k.1 == d.longKey ||
          (d.shortKey != "" && k.2 == d.shortKey))) := by
      induction cs.m_cmds with
      | nil => rfl
      | cons c tl ihc =>
        simp only [List.any_cons, List.map_cons, ihc]
        rfl
    unfold CommandSet.addCmd
    rw [hany]
    cases hc : (cs.m_cmds.map Command.keys).any (fun k => k.1 == d.longKey ||
          (d.shortKey != "" && k.2 == d.shortKey)) with
    | true => simp
    | false =>
      simp only [Bool.false_eq_true, if_false, Bool.not_false, Bool.true_and]
      rw [ih (heap + 1) { cs with m_cmds := cs.m_cmds ++ [CommandProtobuf heap d] }]
      simp [Command.keys, CommandProtobuf]

theorem Executor.loadModuleCommandSet_invalid (w : World) (st : Executor) (node : String)
    (descs : List CliCommand) (hremote : st.m_module.m_isLocal = false)
    (hplugin : st.m_nodePlugin = some node)
    (hfetch : w.getCliCommandSetDescription node = .done descs)
    (hinvalid : w.isCommandSetValid descs = false) :
    st.loadModuleCommandSet w =
      ({ st with out := st.out ++ [.getCliCommandSetDescription node] }, .ok ()) := by
  simp [Executor.loadModuleCommandSet, hremote, hplugin, hfetch, hinvalid]

theorem Executor.loadModuleCommandSet_valid (w : World) (st : Executor) (node : String)
    (descs : List CliCommand) (hremote : st.m_module.m_isLocal = false)
    (hplugin : st.m_nodePlugin = some node)
    (hfetch : w.getCliCommandSetDescription node = .done descs)
    (hvalid : w.isCommandSetValid descs = true) :
    st.loadModuleCommandSet w =
      ({ st with out := st.out ++ [.getCliCommandSetDescription node],
                 m_moduleCmdSet := (Executor.addCommands descs st.heap st.m_moduleCmdSet).2.1,
                 heap := (Executor.addCommands descs st.heap st.m_moduleCmdSet).1 },
       (Executor.addCommands descs st.heap st.m_moduleCmdSet).2.2) := by
  simp [Executor.loadModuleCommandSet, hremote, hplugin, hfetch, hvalid]

/-! ### Execution -/

theorem Executor.execute_nil (w : World) (st st1 : Executor) (key : String)
    (hkey : key ≠ "") (hmod : st.isModuleExistent key = true)
    (hset : st.setModule w key = (st1, .ok ())) :
    st.execute w [{ validKeyName := key }] = st1.executeModuleHelp w := by
  unfold Executor.execute
  rw [Executor.validateCommand_nil w st st1 key hkey hmod hset]

theorem Executor.execute_none (w : World) (st st1 : Executor) (cliList rest : CLIList)
    (hv : st.validateCommand w cliList = (st1, rest, .ok none)) :
    st.execute w cliList = st1.executeModuleHelp w := by
  unfold Executor.execute
  rw [hv]

theorem Executor.execute_command (w : World) (st st1 : Executor) (cliList rest : CLIList)
    (command : Command)
    (hv : st.validateCommand w cliList = (st1, rest, .ok (some command)))
    (hm : command.addr ≠ st1.m_moduleCmdSet.getHelpCmd.addr)
    (hl : command.addr ≠ st1.m_localCmdSet.getHelpCmd.addr) :
    st.execute w cliList = st1.executeCommand w command rest := by
  unfold Executor.execute
  rw [hv]
  simp only [hm, hl, if_false]

theorem Executor.executeModuleHelp_ok (w : World) (st st1 : Executor)
    (h : st.loadModuleCommandSet w = (st1, .ok ())) :
    st.executeModuleHelp w =
      ({ st1 with out := st1.out ++ [.printModuleHelp st1.m_module st1.m_moduleCmdSet.m_cmds] },
       .ok ()) := by
  unfold Executor.executeModuleHelp
  rw [h]

theorem Executor.executeModuleHelp_out (w : World) (st : Executor) (node : String)
    (hremote : st.m_module.m_isLocal = false) (hplugin : st.m_nodePlugin = some node) :
    ∃ tail, (st.executeModuleHelp w).1.out =
      st.out ++ [.getCliCommandSetDescription node] ++ tail := by
  have hload : ∃ tail, (st.loadModuleCommandSet w).1.out =
      st.out ++ [.getCliCommandSetDescription node] ++ tail := by
    unfold Executor.loadModuleCommandSet
    simp only [hremote, hplugin, Bool.false_eq_true, if_false]
    cases w.getCliCommandSetDescription node with
    | failed t => exact ⟨[], by simp⟩
    | done descs =>
      simp only
      split_ifs
      · exact ⟨[], by simp⟩
      · exact ⟨[], by simp⟩
  obtain ⟨tail, ht⟩ := hload
  unfold Executor.executeModuleHelp
  rcases hl : st.loadModuleCommandSet w with ⟨st1, r⟩
  rw [hl] at ht
  cases r with
  | threw e => exact ⟨tail, ht⟩
  | ok u =>
    cases u
    refine ⟨tail ++ [.printModuleHelp st1.m_module st1.m_moduleCmdSet.m_cmds], ?_⟩
    simp only at ht ⊢
    rw [ht]
    simp

theorem Executor.execute_help_again (w : World) (st : Executor) (key : String)
    (md : Module) (hkey : key ≠ "")
    (hmem : ∃ e ∈ st.m_modules, e.2 = md)
    (hmd : md.m_longKey = key ∨ md.m_shortKey = key) (hremote : md.m_isLocal = false)
    (huniq : ∀ e ∈ st.m_modules, (e.2.m_longKey = key ∨ e.2.m_shortKey = key) → e.2 = md)
    (hinit : w.init md.m_longKey = true) :
    ∃ tail : List Event, (st.execute w [{ validKeyName := key }]).1.out =
      st.out ++ [.init md.m_longKey, .getCliCommandSetDescription md.m_longKey] ++ tail := by
  have hset := Executor.setModule_unique_remote w st key md hmem hmd hremote huniq hinit
  rw [Executor.execute_nil w st _ key hkey
    (Executor.isModuleExistent_of_mem st key md hmem hmd) hset]
  obtain ⟨tail, ht⟩ := Executor.executeModuleHelp_out w
    ({ st with m_module := md, m_nodePlugin := some md.m_longKey,
               out := st.out ++ [.init md.m_longKey] } : Executor)
    md.m_longKey hremote rfl
  refine ⟨tail, ?_⟩
  rw [ht]
  simp

/-- Claim C5, as amended.  Let the token select exactly one module, a remote
one whose plugin initialises, whose command-set request returns a valid
description of N commands whose keys clash neither with each other nor with
the commands in the module command set of the executor.  Then the first `execute` on `[module]` returns
normally, issues the command-set request once, and leaves the module command
set with its previous commands followed by exactly the N described commands.
Afterwards, resolving any of the N commands issues no request to the node
besides the plugin initialisation; but showing the help of the module again
issues the command-set request again. -/
theorem loadModuleCommandSet_loaded (w : World) (st : Executor) (key : String)
    (md : Module) (descs : List CliCommand) (hkey : key ≠ "")
    (hmem : ∃ e ∈ st.m_modules, e.2 = md)
    (hmd : md.m_longKey = key ∨ md.m_shortKey = key) (hremote : md.m_isLocal = false)
    (huniq : ∀ e ∈ st.m_modules, (e.2.m_longKey = key ∨ e.2.m_shortKey = key) → e.2 = md)
    (hinit : w.init md.m_longKey = true)
    (hfetch : w.getCliCommandSetDescription md.m_longKey = .done descs)
    (hvalid : w.isCommandSetValid descs = true)
    (hadd : keysAddable (st.m_moduleCmdSet.m_cmds.map Command.keys) descs = true) :
    (st.execute w [{ validKeyName := key }]).2 = .ok () ∧
    (st.execute w [{ validKeyName := key }]).1.m_moduleCmdSet.m_cmds =
      st.m_moduleCmdSet.m_cmds ++ CommandProtobufs st.heap descs ∧
    (CommandProtobufs st.heap descs).length = descs.length ∧
    (st.execute w [{ validKeyName := key }]).1.out =
      st.out ++ [.init md.m_longKey, .getCliCommandSetDescription md.m_longKey,
        .printModuleHelp md (st.m_moduleCmdSet.m_cmds ++ CommandProtobufs st.heap descs)] ∧
    (∀ d ∈ descs, d.longKey ≠ "" → ∀ rest : CLIList,
      (Executor.validateCommand w (st.execute w [{ validKeyName := key }]).1
          ({ validKeyName := key } :: { validKeyName := d.longKey } :: rest)).1.out =
        (st.execute w [{ validKeyName := key }]).1.out ++ [.init md.m_longKey] ∧
      ∃ c : Command, c.hasKey d.longKey = true ∧
        (Executor.validateCommand w (st.execute w [{ validKeyName := key }]).1
          ({ validKeyName := key } :: { validKeyName := d.longKey } :: rest)).2.2 =
          .ok (some c)) ∧
    (∃ tail : List Event,
      (Executor.execute w (st.execute w [{ validKeyName := key }]).1
          [{ validKeyName := key }]).1.out =
        (st.execute w [{ validKeyName := key }]).1.out ++
          [.init md.m_longKey, .getCliCommandSetDescription md.m_longKey] ++ tail) := by
  have hl := Executor.loadModuleCommandSet_valid w
    ({ st with m_module := md, m_nodePlugin := some md.m_longKey,
               out := st.out ++ [.init md.m_longKey] } : Executor)
    md.m_longKey descs hremote rfl hfetch hvalid
  simp only [Executor.addCommands_ok descs st.heap st.m_moduleCmdSet
    ((keysAddable_iff descs st.heap st.m_moduleCmdSet).2 hadd)] at hl
  have hex : st.execute w [{ validKeyName := key }] =
      ({ st with m_module := md, m_nodePlugin := some md.m_longKey,
                 m_moduleCmdSet := { st.m_moduleCmdSet with
                   m_cmds := st.m_moduleCmdSet.m_cmds ++ CommandProtobufs st.heap descs },
                 heap := st.heap + descs.length,
                 out := st.out ++ [.init md.m_longKey,
                   .getCliCommandSetDescription md.m_longKey,
                   .printModuleHelp md
                     (st.m_moduleCmdSet.m_cmds ++ CommandProtobufs st.heap descs)] },
       .ok ()) := by
    rw [Executor.execute_nil w st _ key hkey
        (Executor.isModuleExistent_of_mem st key md hmem hmd)
        (Executor.setModule_unique_remote w st key md hmem hmd hremote huniq hinit),
      Executor.executeModuleHelp_ok w _ _ hl]
    simp
  have hmods : (st.execute w [{ validKeyName := key }]).1.m_modules = st.m_modules := by
    rw [hex]
  have hcmds : (st.execute w [{ validKeyName := key }]).1.m_moduleCmdSet.m_cmds =
      st.m_moduleCmdSet.m_cmds ++ CommandProtobufs st.heap descs := by
    rw [hex]
  refine ⟨by rw [hex], hcmds, CommandProtobufs_length _ _, by rw [hex], ?_, ?_⟩
  · intro d hd hdk rest
    obtain ⟨addr, ha⟩ := CommandProtobufs_mem st.heap descs d hd
    exact Executor.validateCommand_loaded w _ key d.longKey md rest hkey hdk
      (by rw [hmods]; exact hmem) hmd hremote (by rw [hmods]; exact huniq) hinit
      (CommandProtobuf addr d) (by rw [hcmds]; exact List.mem_append_right _ ha)
      (by simp [Command.hasKey, CommandProtobuf])
  · exact Executor.execute_help_again w _ key md hkey (by rw [hmods]; exact hmem) hmd hremote
      (by rw [hmods]; exact huniq) hinit

/-- Witness of `loadModuleCommandSet_loaded`: the module `modA` of
`exampleWorld`, whose command set is `cmdX`, `cmdZ`, on the new executor. -/
theorem loadModuleCommandSet_loaded_witness :
    ((Executor.new exampleWorld).execute exampleWorld [{ validKeyName := "modA" }]).2 = .ok () ∧
    ((Executor.new exampleWorld).execute exampleWorld
        [{ validKeyName := "modA" }]).1.m_moduleCmdSet.m_cmds =
      (Executor.new exampleWorld).m_moduleCmdSet.m_cmds ++
        CommandProtobufs (Executor.new exampleWorld).heap
          [{ longKey := "cmdX" }, { longKey := "cmdZ" }] :=
  ⟨(loadModuleCommandSet_loaded exampleWorld (Executor.new exampleWorld) "modA"
      { m_longKey := "modA" } [{ longKey := "cmdX" }, { longKey := "cmdZ" }]
      (by decide) (by decide) (by decide) (by decide) (by decide) (by decide) rfl
      (by decide) (by decide)).1,
   (loadModuleCommandSet_loaded exampleWorld (Executor.new exampleWorld) "modA"
      { m_longKey := "modA" } [{ longKey := "cmdX" }, { longKey := "cmdZ" }]
      (by decide) (by decide) (by decide) (by decide) (by decide) (by decide) rfl
      (by decide) (by decide)).2.1⟩

/-- Claim C5, counterexample.  On the new executor of `exampleWorld`, whose
module `modA` describes the two well-formed commands `cmdX` and `cmdZ`, the
first `execute` on `[modA]` loads them; a second `execute` on `[modA]` on the
same executor issues the command-set request to the node again, so that two
such requests have been issued. -/
theorem loadModuleCommandSet_loaded_counterexample :
    exampleWorld.getCliCommandSetDescription "modA" =
      .done [{ longKey := "cmdX" }, { longKey := "cmdZ" }] ∧
    exampleWorld.isCommandSetValid [{ longKey := "cmdX" }, { longKey := "cmdZ" }] = true ∧
    ((Executor.new exampleWorld).execute exampleWorld [{ validKeyName := "modA" }]).2 = .ok () ∧
    ((Executor.new exampleWorld).execute exampleWorld
        [{ validKeyName := "modA" }]).1.m_moduleCmdSet.m_cmds =
      [CmdHelp 1, CommandProtobuf 2 { longKey := "cmdX" },
        CommandProtobuf 3 { longKey := "cmdZ" }] ∧
    (((Executor.new exampleWorld).execute exampleWorld
        [{ validKeyName := "modA" }]).1.out.count (.getCliCommandSetDescription "modA")) = 1 ∧
    ((Executor.execute exampleWorld
        ((Executor.new exampleWorld).execute exampleWorld [{ validKeyName := "modA" }]).1
        [{ validKeyName := "modA" }]).1.out.count (.getCliCommandSetDescription "modA")) = 2 := by
  refine ⟨?_, ?_, ?_, ?_, ?_, ?_⟩ <;> decide

/-- Claim C6, as amended.  Take an executor on which only registrations have
run (module discovery, then `addLocalModule` calls), a registered remote module
with a non-empty long key whose plugin initialises, and let its command-set
request complete with a description that fails validation.  Then
`loadModuleCommandSet` adds no command to the module command set, whatever the
state it is called in; and `execute` on `[module]` returns normally, leaves the
module command set with its help command only (zero commands), and prints the
help of the module after the plugin initialisation and the request. -/
theorem loadModuleCommandSet_rejected (w : World) (st : Executor) (md : Module)
    (descs : List CliCommand) (hreach : Reachable w st)
    (hmem : ∃ e ∈ st.m_modules, e.2 = md) (hkey : md.m_longKey ≠ "")
    (hremote : md.m_isLocal = false) (hinit : w.init md.m_longKey = true)
    (hfetch : w.getCliCommandSetDescription md.m_longKey = .done descs)
    (hinvalid : w.isCommandSetValid descs = false) :
    (∀ st' : Executor, st'.m_module = md → st'.m_nodePlugin = some md.m_longKey →
      st'.loadModuleCommandSet w =
        ({ st' with out := st'.out ++ [.getCliCommandSetDescription md.m_longKey] }, .ok ())) ∧
    (st.execute w [{ validKeyName := md.m_longKey }]).2 = .ok () ∧
    (∃ a, (st.execute w [{ validKeyName := md.m_longKey }]).1.m_moduleCmdSet =
      CommandSet.new a) ∧
    (st.execute w [{ validKeyName := md.m_longKey }]).1.m_module = md ∧
    (st.execute w [{ validKeyName := md.m_longKey }]).1.out =
      st.out ++ [.init md.m_longKey, .getCliCommandSetDescription md.m_longKey,
        .printModuleHelp md
          (st.execute w [{ validKeyName := md.m_longKey }]).1.m_moduleCmdSet.m_cmds] := by
  have hload : ∀ st' : Executor, st'.m_module = md → st'.m_nodePlugin = some md.m_longKey →
      st'.loadModuleCommandSet w =
        ({ st' with out := st'.out ++ [.getCliCommandSetDescription md.m_longKey] }, .ok ()) :=
    fun st' hm hp =>
      Executor.loadModuleCommandSet_invalid w st' md.m_longKey descs (by rw [hm]; exact hremote)
        hp hfetch hinvalid
  obtain ⟨h1, h2, h3, h4, ⟨a, h5⟩, _, _⟩ :=
    Executor.setModule_registered w st md hreach.registeredInv hmem hkey hremote
  rw [hinit] at h1
  rcases hs : st.setModule w md.m_longKey with ⟨st1, r⟩
  rw [hs] at h1 h2 h3 h4 h5
  simp only at h1 h2 h3 h4 h5
  subst h1
  have hex : st.execute w [{ validKeyName := md.m_longKey }] =
      ({ st1 with out := st1.out ++ [.getCliCommandSetDescription md.m_longKey,
          .printModuleHelp md st1.m_moduleCmdSet.m_cmds] }, .ok ()) := by
    rw [Executor.execute_nil w st st1 md.m_longKey hkey
        (Executor.isModuleExistent_of_mem st md.m_longKey md hmem (Or.inl rfl)) hs,
      Executor.executeModuleHelp_ok w _ _ (hload st1 h2 h3)]
    simp [h2]
  refine ⟨hload, by rw [hex], ⟨a, by rw [hex]; exact h5⟩, by rw [hex]; exact h2, ?_⟩
  rw [hex]
  simp [h4]

/-- Witness of `loadModuleCommandSet_rejected`: the remote module `modA` on the
executor of `invalidSetWorld` that has registered the local module `loc`; the
node answers the command-set request with an empty description. -/
theorem loadModuleCommandSet_rejected_witness :
    Reachable invalidSetWorld
      ((Executor.new invalidSetWorld).addLocalModule exampleInterface "loc" "" "l").1 ∧
    (Executor.execute invalidSetWorld
      ((Executor.new invalidSetWorld).addLocalModule exampleInterface "loc" "" "l").1
      [{ validKeyName := "modA" }]).2 = .ok () ∧
    ∃ a, (Executor.execute invalidSetWorld
      ((Executor.new invalidSetWorld).addLocalModule exampleInterface "loc" "" "l").1
      [{ validKeyName := "modA" }]).1.m_moduleCmdSet = CommandSet.new a :=
  ⟨Reachable.addLocalModule _ _ _ _ _ Reachable.new,
   (loadModuleCommandSet_rejected invalidSetWorld
      ((Executor.new invalidSetWorld).addLocalModule exampleInterface "loc" "" "l").1
      { m_longKey := "modA" } [] (Reachable.addLocalModule _ _ _ _ _ Reachable.new)
      (by decide) (by decide) (by decide) (by decide) rfl (by decide)).2.1,
   (loadModuleCommandSet_rejected invalidSetWorld
      ((Executor.new invalidSetWorld).addLocalModule exampleInterface "loc" "" "l").1
      { m_longKey := "modA" } [] (Reachable.addLocalModule _ _ _ _ _ Reachable.new)
      (by decide) (by decide) (by decide) (by decide) rfl (by decide)).2.2.1⟩

/-- Claim C6, counterexample.  On an executor that has shown the help of the
local module `loc` before, the remote module `modA` answers the command-set
request with a description that fails validation; `loadModuleCommandSet`
and `execute` on `[modA]` return normally, but the module command set is left
with the two commands `c` and `d` of `loc`, not with zero commands. -/
theorem loadModuleCommandSet_rejected_counterexample :
    invalidSetWorld.getCliCommandSetDescription "modA" = .done [] ∧
    invalidSetWorld.isCommandSetValid [] = false ∧
    (staleExecutor.setModule invalidSetWorld "modA").1.m_module = { m_longKey := "modA" } ∧
    (Executor.loadModuleCommandSet invalidSetWorld
        (staleExecutor.setModule invalidSetWorld "modA").1).2 = .ok () ∧
    (Executor.loadModuleCommandSet invalidSetWorld
        (staleExecutor.setModule invalidSetWorld "modA").1).1.m_moduleCmdSet.m_cmds =
      [CmdHelp 2, CommandProtobufLocal 3 { name := "c" },
        CommandProtobufLocal 4 { name := "d" }] ∧
    (staleExecutor.execute invalidSetWorld [{ validKeyName := "modA" }]).2 = .ok () ∧
    (staleExecutor.execute invalidSetWorld
        [{ validKeyName := "modA" }]).1.m_moduleCmdSet.m_cmds =
      [CmdHelp 2, CommandProtobufLocal 3 { name := "c" },
        CommandProtobufLocal 4 { name := "d" }] := by
  refine ⟨?_, ?_, ?_, ?_, ?_, ?_, ?_⟩ <;> decide

/-- Claim C7, as amended.  Take an executor on which only registrations have
run, a registered remote module `md` with a non-empty long key whose plugin
initialises, and a non-empty command key `cmdY` other than `help` for which the
node answers the single-command request with a description that is not a valid
command (not found).  Then `validateCommand` on `[md, cmdY]` returns the null
command without throwing, after the plugin initialisation and that one request.
If moreover the command-set request completes and its commands, when valid, do
not clash in their keys, `execute` returns normally and does, in order: the
plugin initialisation, the single-command request, the command-set request, and
the printing of the help of the module; no command is executed and no generic
call is issued. -/
theorem validateCommand_unknown (w : World) (st : Executor) (md : Module) (cmdY : String)
    (desc : CliCommand) (rest : CLIList) (hreach : Reachable w st)
    (hmem : ∃ e ∈ st.m_modules, e.2 = md) (hkey : md.m_longKey ≠ "")
    (hremote : md.m_isLocal = false) (hinit : w.init md.m_longKey = true)
    (hcmd : cmdY ≠ "") (hhelp : cmdY ≠ "help")
    (hlookup : w.getCliCommandDescription md.m_longKey cmdY = .done desc)
    (hnotfound : w.isCommandValid desc = false) :
    (st.validateCommand w
        ({ validKeyName := md.m_longKey } :: { validKeyName := cmdY } :: rest)).2 =
      (rest, .ok none) ∧
    (st.validateCommand w
        ({ validKeyName := md.m_longKey } :: { validKeyName := cmdY } :: rest)).1.out =
      st.out ++ [.init md.m_longKey, .getCliCommandDescription md.m_longKey cmdY] ∧
    (∀ descs : List CliCommand, w.getCliCommandSetDescription md.m_longKey = .done descs →
      (w.isCommandSetValid descs = true → keysAddable [("help", "")] descs = true) →
      (st.execute w
        ({ validKeyName := md.m_longKey } :: { validKeyName := cmdY } :: rest)).2 = .ok () ∧
      ∃ cmds : List Command,
        (st.execute w
          ({ validKeyName := md.m_longKey } :: { validKeyName := cmdY } :: rest)).1.out =
          st.out ++ [.init md.m_longKey, .getCliCommandDescription md.m_longKey cmdY,
            .getCliCommandSetDescription md.m_longKey, .printModuleHelp md cmds]) := by
  obtain ⟨h1, h2, h3, h4, ⟨a, h5⟩, _, _⟩ :=
    Executor.setModule_registered w st md hreach.registeredInv hmem hkey hremote
  rw [hinit] at h1
  rcases hs : st.setModule w md.m_longKey with ⟨st1, r⟩
  rw [hs] at h1 h2 h3 h4 h5
  simp only at h1 h2 h3 h4 h5
  subst h1
  have hv : st.validateCommand w
      ({ validKeyName := md.m_longKey } :: { validKeyName := cmdY } :: rest) =
      ({ st1 with out := st1.out ++ [.getCliCommandDescription md.m_longKey cmdY] },
        rest, .ok none) := by
    rw [Executor.validateCommand_fetch w st st1 md.m_longKey cmdY rest hkey
        (Executor.isModuleExistent_of_mem st md.m_longKey md hmem (Or.inl rfl)) hs hcmd
        (by rw [h5]; exact CommandSet.new_hasCmd a cmdY hhelp),
      Executor.getCommandFromModule_notFound w st1 md.m_longKey cmdY desc h3 hlookup hnotfound]
  refine ⟨by rw [hv], by rw [hv]; simp [h4], fun descs hfetch hadd => ?_⟩
  rw [Executor.execute_none w st _ _ rest hv]
  cases hvalid : w.isCommandSetValid descs with
  | false =>
    have hl := Executor.loadModuleCommandSet_invalid w
      ({ st1 with out := st1.out ++ [.getCliCommandDescription md.m_longKey cmdY] } : Executor)
      md.m_longKey descs (by rw [← h2] at hremote; exact hremote) h3 hfetch hvalid
    rw [Executor.executeModuleHelp_ok w _ _ hl]
    exact ⟨rfl, st1.m_moduleCmdSet.m_cmds, by simp [h4, h2]⟩
  | true =>
    have hok : (Executor.addCommands descs st1.heap st1.m_moduleCmdSet).2.2 = .ok () := by
      rw [keysAddable_iff, h5]
      exact hadd hvalid
    have hl := Executor.loadModuleCommandSet_valid w
      ({ st1 with out := st1.out ++ [.getCliCommandDescription md.m_longKey cmdY] } : Executor)
      md.m_longKey descs (by rw [← h2] at hremote; exact hremote) h3 hfetch hvalid
    simp only [Executor.addCommands_ok descs st1.heap st1.m_moduleCmdSet hok] at hl
    rw [Executor.executeModuleHelp_ok w _ _ hl]
    exact ⟨rfl, st1.m_moduleCmdSet.m_cmds ++ CommandProtobufs st1.heap descs,
      by simp [h4, h2]⟩

/-- Witness of `validateCommand_unknown`: `[modA, cmdY]` on the executor of
`exampleWorld` with the local module `loc`; the node does not know `cmdY` and
describes the command set `cmdX`, `cmdZ`. -/
theorem validateCommand_unknown_witness :
    Reachable exampleWorld exampleExecutor ∧
    (exampleExecutor.validateCommand exampleWorld
        [{ validKeyName := "modA" }, { validKeyName := "cmdY" }]).2 = ([], .ok none) ∧
    (exampleExecutor.execute exampleWorld
        [{ validKeyName := "modA" }, { validKeyName := "cmdY" }]).2 = .ok () :=
  ⟨Reachable.addLocalModule _ _ _ _ _ Reachable.new,
   (validateCommand_unknown exampleWorld exampleExecutor { m_longKey := "modA" } "cmdY"
      { longKey := "" } [] (Reachable.addLocalModule _ _ _ _ _ Reachable.new) (by decide)
      (by decide) (by decide) (by decide) (by decide) (by decide) (by decide) (by decide)).1,
   ((validateCommand_unknown exampleWorld exampleExecutor { m_longKey := "modA" } "cmdY"
      { longKey := "" } [] (Reachable.addLocalModule _ _ _ _ _ Reachable.new) (by decide)
      (by decide) (by decide) (by decide) (by decide) (by decide) (by decide) (by decide)).2.2
      [{ longKey := "cmdX" }, { longKey := "cmdZ" }] rfl (fun _ => by decide)).1⟩

/-- Claim C7, counterexample.  On the new executor of `exampleWorld` the node
does not know the command key `help` (the single-command request gives a
description that is not a valid command), yet `validateCommand` on
`[modA, help]` returns the help command of the module command set, not the
null command.  And on the executor that has shown the help of the local module
`loc` before, the node does not know the command key `c` either, yet
`validateCommand` on `[modA, c]` returns the command `c` of `loc`, and `execute`
runs it. -/
theorem validateCommand_unknown_counterexample :
    (exampleWorld.getCliCommandDescription "modA" "help" = .done { longKey := "" } ∧
      exampleWorld.isCommandValid { longKey := "" } = false ∧
      ((Executor.new exampleWorld).setModule exampleWorld "modA").2 = .ok () ∧
      ((Executor.new exampleWorld).validateCommand exampleWorld
          [{ validKeyName := "modA" }, { validKeyName := "help" }]).2.2 =
        .ok (some (CmdHelp 1))) ∧
    (invalidSetWorld.getCliCommandDescription "modA" "c" = .done { longKey := "" } ∧
      (staleExecutor.validateCommand invalidSetWorld
          [{ validKeyName := "modA" }, { validKeyName := "c" }]).2.2 =
        .ok (some (CommandProtobufLocal 3 { name := "c" })) ∧
      (staleExecutor.execute invalidSetWorld
          [{ validKeyName := "modA" }, { validKeyName := "c" }]).1.out.getLast? =
        some (.execute (CommandProtobufLocal 3 { name := "c" }))) := by
  refine ⟨⟨?_, ?_, ?_, ?_⟩, ⟨?_, ?_, ?_⟩⟩ <;> decide

/-- Claim C8, as amended.  Let `validateCommand` resolve a command that is
neither null nor one of the two help commands.  When parsing its parameters
fails, `execute` prints the help of the command and returns normally, with
nothing else done.  When parsing succeeds: a local command is executed exactly
once; a non-local `CommandProtobuf` goes through `executeRemote`, which issues
exactly one generic call when the node plugin is set and marshalling does not
throw, and none otherwise; a non-local command of any other type raises
`Unknown command type.` and nothing is dispatched. -/
theorem execute_dispatch (w : World) (st st1 : Executor) (cliList rest : CLIList)
    (command : Command)
    (hv : st.validateCommand w cliList = (st1, rest, .ok (some command)))
    (hm : command.addr ≠ st1.m_moduleCmdSet.getHelpCmd.addr)
    (hl : command.addr ≠ st1.m_localCmdSet.getHelpCmd.addr) :
    (w.parseParamValues command rest = false →
      st.execute w cliList =
        ({ st1 with out := st1.out ++ [.printCmdHelp command] }, .ok ())) ∧
    (w.parseParamValues command rest = true → command.isLocal = true →
      (st.execute w cliList).1 = { st1 with out := st1.out ++ [.execute command] } ∧
      ((st.execute w cliList).2 = .ok () ↔ w.execute command = none)) ∧
    (w.parseParamValues command rest = true → command.isLocal = false →
        command.isProtobuf = true →
      st.execute w cliList = st1.executeRemote w command ∧
      (∀ node, st1.m_nodePlugin = some node → w.parseToProtobuf command = none →
        (st.execute w cliList).1 =
          { st1 with out := st1.out ++ [.genericCallMethod node command] }) ∧
      ((st1.m_nodePlugin = none ∨ w.parseToProtobuf command ≠ none) →
        (st.execute w cliList).1 = st1 ∧ (st.execute w cliList).2 ≠ .ok ())) ∧
    (w.parseParamValues command rest = true → command.isLocal = false →
        command.isProtobuf = false →
      st.execute w cliList = (st1, .threw (.invalidParameter "Unknown command type."))) := by
  rw [Executor.execute_command w st st1 cliList rest command hv hm hl]
  refine ⟨fun hp => ?_, fun hp hloc => ?_, fun hp hloc hproto => ⟨?_, ?_, ?_⟩,
    fun hp hloc hproto => ?_⟩
  · simp [Executor.executeCommand, hp]
  · unfold Executor.executeCommand
    simp only [hp, hloc, if_true]
    cases w.execute command <;> simp
  · simp [Executor.executeCommand, hp, hloc, hproto]
  · intro node hnode hmarshal
    simp only [Executor.executeCommand, hp, hloc, hproto, if_true, Bool.false_eq_true, if_false,
      Executor.executeRemote, hnode, hmarshal]
    cases w.handleCall node command <;> rfl
  · intro hno
    simp only [Executor.executeCommand, hp, hloc, hproto, if_true, Bool.false_eq_true, if_false,
      Executor.executeRemote]
    cases hnode : st1.m_nodePlugin with
    | none => simp
    | some node =>
      cases hmarshal : w.parseToProtobuf command with
      | none =>
        rcases hno with hno | hno
        · rw [hnode] at hno; cases hno
        · exact absurd hmarshal hno
      | some e => simp
  · simp [Executor.executeCommand, hp, hloc, hproto]

/-- Witness of `execute_dispatch`: the local command `c` of the module `loc`,
with and without a surplus parameter. -/
theorem execute_dispatch_witness :
    exampleExecutor.validateCommand exampleWorld
        [{ validKeyName := "loc" }, { validKeyName := "c" }] =
      ((exampleExecutor.setModule exampleWorld "loc").1, [],
        .ok (some (CommandProtobufLocal 3 { name := "c" }))) ∧
    (exampleExecutor.execute exampleWorld
        [{ validKeyName := "loc" }, { validKeyName := "c" }]).1 =
      { (exampleExecutor.setModule exampleWorld "loc").1 with
        out := (exampleExecutor.setModule exampleWorld "loc").1.out ++
          [.execute (CommandProtobufLocal 3 { name := "c" })] } :=
  ⟨by decide,
   ((execute_dispatch exampleWorld exampleExecutor
      (exampleExecutor.setModule exampleWorld "loc").1
      [{ validKeyName := "loc" }, { validKeyName := "c" }] []
      (CommandProtobufLocal 3 { name := "c" }) (by decide) (by decide) (by decide)).2.1
      (by decide) (by decide)).1⟩

/-- Claim C8, counterexample.  A command added with `addLocalCommand` that is
not local and is not a `CommandProtobuf` is resolved by `[custom]`, is neither
null nor a help command, and its parameters parse; `execute` then throws
`Unknown command type.` and the record of what was done is unchanged: nothing
was dispatched. -/
theorem execute_dispatch_counterexample :
    (customExecutor.validateCommand exampleWorld [{ validKeyName := "custom" }]).2.2 =
      .ok (some { addr := 100, longKey := "custom", shortKey := "", isLocal := false,
                  isProtobuf := false }) ∧
    (100 ≠ customExecutor.m_moduleCmdSet.getHelpCmd.addr ∧
      100 ≠ customExecutor.m_localCmdSet.getHelpCmd.addr) ∧
    exampleWorld.parseParamValues
      { addr := 100, longKey := "custom", shortKey := "", isLocal := false,
        isProtobuf := false } [] = true ∧
    customExecutor.execute exampleWorld [{ validKeyName := "custom" }] =
      (customExecutor, .threw (.invalidParameter "Unknown command type.")) := by
  refine ⟨?_, ⟨?_, ?_⟩, ?_, ?_⟩ <;> decide

/-! ### Progress reporting -/

end octf
